import Mathlib

/-!
# gpt4all-chat: download / verify / install engine

A shallow embedding of `gpt4all-chat/download.cpp` and of the registry
operations of `gpt4all-chat/modellist.cpp` it calls.

Conventions of the embedding

* `QString` is `String`, `QByteArray` is a list of bytes (`Fin 256`); the
  expected digest (`md5sum`), which the source passes around as text, is a
  `String`.
* `qint64` / `size_t` quantities are `Int` / `Nat`; the source never relies on
  wrap-around (signed overflow is undefined in C++), so the arithmetic is the
  unbounded one.  C++ integer division is `Int.tdiv`.
* The file system is explicit state: a map from paths to file contents and
  modification times.  Outcomes decided by the environment (whether an
  `open`, a `rename` or a `write` succeeds) are explicit arguments.
* `QString::arg` replaces every occurrence of the lowest-numbered place
  marker still in the text, so that chained calls read the text the earlier
  calls inserted (`pieces`, `lowestMarker`, `replaceArgEscapes`).  The range
  header, whose format holds the single marker `%1` and takes a number, is
  written as the text around the number.
* Outcomes of `remove`, like those of `open` and `rename`, are decided by the
  environment of the worker (`HashEnv`).
* Objects the source addresses through pointers (`QNetworkReply *`) carry a
  numeric identity; `QMap` keyed by such a pointer is an association list
  ordered by that identity.
-/

namespace Gpt4all

/-! ## Qt values -/

/-- A byte of a `QByteArray`. -/
abbrev Byte := Fin 256

/-- The kinds of `QVariant` the sources store in the registry. -/
inductive QVariant where
  | invalid
  | bool (b : Bool)
  | longlong (n : Int)
  | string (s : String)
  deriving DecidableEq, Repr

/-- Lower bound of `qint64`. -/
def minInt64 : Int := -(2 ^ 63)

/-- Upper bound of `qint64`. -/
def maxInt64 : Int := 2 ^ 63 - 1

/-- Value of a run of decimal digits; `none` when a character is not a digit. -/
def digitsValue : List Char → Nat → Option Nat
  | [], acc => some acc
  | c :: cs, acc => if c.isDigit then digitsValue cs (acc * 10 + (c.toNat - 48)) else none

/-- The function `QString::toLongLong()` (base 10): surrounding whitespace is
ignored, an optional sign is followed by at least one digit, and a text that
is not a number or does not fit `qint64` gives 0. -/
def toLongLong (s : String) : Int :=
  let cs := ((s.data.dropWhile Char.isWhitespace).reverse.dropWhile Char.isWhitespace).reverse
  let (neg, ds) :=
    match cs with
    | '-' :: r => (true, r)
    | '+' :: r => (false, r)
    | r => (false, r)
  match ds with
  | [] => 0
  | _ =>
    match digitsValue ds 0 with
    | none => 0
    | some n =>
      let v : Int := if neg then -(n : Int) else (n : Int)
      if minInt64 ≤ v ∧ v ≤ maxInt64 then v else 0

/-- The conversion `QVariant::toString()`. -/
def QVariant.toQString : QVariant → String
  | .invalid => ""
  | .bool b => if b then "true" else "false"
  | .longlong n => toString n
  | .string s => s

/-- The conversion `QVariant::toBool()`. -/
def QVariant.toBool : QVariant → Bool
  | .invalid => false
  | .bool b => b
  | .longlong n => n != 0
  | .string s => !(s.data.isEmpty || s = "0" || String.mk (s.data.map Char.toLower) = "false")

/-- The conversion `QVariant::toLongLong()`. -/
def QVariant.toLongLong : QVariant → Int
  | .invalid => 0
  | .bool b => if b then 1 else 0
  | .longlong n => n
  | .string s => Gpt4all.toLongLong s

/-- The test `QString::endsWith`. -/
def endsWith (s t : String) : Bool := t.data.isSuffixOf s.data

/-- The test `QString::contains` for a single character. -/
def containsChar (s : String) (c : Char) : Bool := s.data.contains c

/-- The last piece of `QString::split(sep)`: the text after the last `sep`
(the whole text when `sep` does not occur). -/
def splitLast (sep : Char) : List Char → List Char → List Char
  | [], acc => acc.reverse
  | c :: cs, acc => if c = sep then splitLast sep cs [] else splitLast sep cs (c :: acc)

/-- The function `QByteArray::toHex()`: two lowercase hexadecimal digits per byte. -/
def toHex (bs : List Byte) : String :=
  String.mk (bs.flatMap fun b => [Nat.digitChar (b.val / 16), Nat.digitChar (b.val % 16)])

/-! ## Place markers (`QString::arg`) -/

/-- The value Qt reads a character of a place marker as: that of an ASCII digit. -/
def digitValue (c : Char) : Option Nat :=
  if 48 ≤ c.toNat ∧ c.toNat ≤ 57 then some (c.toNat - 48) else none

/-- A piece of a text as `QString::arg` reads it: a character, or a place
marker (a percent sign, an optional `L`, one or two digits) with its number,
whether it has the `L`, and its own characters. -/
inductive Piece where
  | text (c : Char)
  | marker (number : Nat) (locale : Bool) (raw : List Char)
  deriving DecidableEq, Repr

/-- Where the scan for place markers stands: in plain text, after a percent
sign, after a percent sign and `L`, or after the first digit of a marker. -/
inductive Scan where
  | text
  | percent
  | percentL
  | digit (number : Nat) (locale : Bool) (raw : List Char)

/-- The scan of `findArgEscapes` and `replaceArgEscapes`.  A percent sign that
no digit follows (after an optional `L`) is plain text and the scan goes on
at the character after it; a second digit belongs to the marker. -/
def pieces : Scan → List Char → List Piece
  | .text, [] => []
  | .percent, [] => [.text (Char.ofNat 37)]
  | .percentL, [] => [.text (Char.ofNat 37), .text (Char.ofNat 76)]
  | .digit n loc raw, [] => [.marker n loc raw]
  | .text, c :: rest =>
    if c = Char.ofNat 37 then pieces .percent rest else .text c :: pieces .text rest
  | .percent, c :: rest =>
    if c = Char.ofNat 76 then pieces .percentL rest
    else
      match digitValue c with
      | some d => pieces (.digit d false [Char.ofNat 37, c]) rest
      | none =>
        if c = Char.ofNat 37 then .text (Char.ofNat 37) :: pieces .percent rest
        else .text (Char.ofNat 37) :: .text c :: pieces .text rest
  | .percentL, c :: rest =>
    match digitValue c with
    | some d => pieces (.digit d true [Char.ofNat 37, Char.ofNat 76, c]) rest
    | none =>
      if c = Char.ofNat 37 then
        .text (Char.ofNat 37) :: .text (Char.ofNat 76) :: pieces .percent rest
      else .text (Char.ofNat 37) :: .text (Char.ofNat 76) :: .text c :: pieces .text rest
  | .digit n loc raw, c :: rest =>
    match digitValue c with
    | some d => .marker (10 * n + d) loc (raw ++ [c]) :: pieces .text rest
    | none =>
      if c = Char.ofNat 37 then .marker n loc raw :: pieces .percent rest
      else .marker n loc raw :: .text c :: pieces .text rest

/-- The lowest number among the place markers of a text, if it has any. -/
def lowestMarker : List Piece → Option Nat
  | [] => none
  | .text _ :: rest => lowestMarker rest
  | .marker n _ _ :: rest =>
    match lowestMarker rest with
    | none => some n
    | some m => some (min n m)

/-- The text with every marker of number `lowest` replaced: by `arg`, or by
`larg` when the marker has the `L`. -/
def replaceArgEscapes (ps : List Piece) (lowest : Nat) (arg larg : List Char) : List Char :=
  ps.flatMap fun p =>
    match p with
    | .text c => [c]
    | .marker n loc raw => if n = lowest then (if loc then larg else arg) else raw

/-- One call of `QString::arg` with field width 0: every occurrence of the
lowest-numbered place marker is replaced; a text without a marker is returned
as it is. -/
def QString.argWith (s arg larg : String) : String :=
  match lowestMarker (pieces .text s.data) with
  | none => s
  | some lowest => String.mk (replaceArgEscapes (pieces .text s.data) lowest arg.data larg.data)

/-- The call `QString::arg(const QString &)`. -/
def QString.arg (s a : String) : String := QString.argWith s a a

/-- The call `QString::arg(int)`: a marker with the `L` takes the number as
the default locale writes it, given by `locale`. -/
def QString.argNumber (s : String) (a : Int) (locale : Int → String) : String :=
  QString.argWith s (toString a) (locale a)

/-! ## The registry (`modellist.cpp`) -/

/-- The roles of `ModelList`; `other` stands for any `int` that is none of them. -/
inductive Role where
  | NameRole | FilenameRole | DirpathRole | FilesizeRole | Md5sumRole
  | CalcHashRole | InstalledRole | DefaultRole | ChatGPTRole | DisableGUIRole
  | DescriptionRole | RequiresVersionRole | DeprecatedVersionRole | UrlRole
  | BytesReceivedRole | BytesTotalRole | TimestampRole | SpeedRole
  | DownloadingRole | IncompleteRole | DownloadErrorRole
  | other
  deriving DecidableEq, Repr

/-- The record `ModelInfo`, with the fields `ModelList::updateData` writes. -/
structure ModelInfo where
  name : String := ""
  filename : String := ""
  dirpath : String := ""
  filesize : String := ""
  md5sum : String := ""
  calcHash : Bool := false
  installed : Bool := false
  isDefault : Bool := false
  isChatGPT : Bool := false
  disableGUI : Bool := false
  description : String := ""
  requiresVersion : String := ""
  deprecatedVersion : String := ""
  url : String := ""
  bytesReceived : Int := 0
  bytesTotal : Int := 0
  timestamp : Int := 0
  speed : String := ""
  isDownloading : Bool := false
  isIncomplete : Bool := false
  downloadError : String := ""
  deriving DecidableEq, Repr

/-- The `switch (role)` of `ModelList::updateData`. -/
def ModelInfo.setRole (info : ModelInfo) (role : Role) (value : QVariant) : ModelInfo :=
  match role with
  | .NameRole => { info with name := value.toQString }
  | .FilenameRole => { info with filename := value.toQString }
  | .DirpathRole => { info with dirpath := value.toQString }
  | .FilesizeRole => { info with filesize := value.toQString }
  | .Md5sumRole => { info with md5sum := value.toQString }
  | .CalcHashRole => { info with calcHash := value.toBool }
  | .InstalledRole => { info with installed := value.toBool }
  | .DefaultRole => { info with isDefault := value.toBool }
  | .ChatGPTRole => { info with isChatGPT := value.toBool }
  | .DisableGUIRole => { info with disableGUI := value.toBool }
  | .DescriptionRole => { info with description := value.toQString }
  | .RequiresVersionRole => { info with requiresVersion := value.toQString }
  | .DeprecatedVersionRole => { info with deprecatedVersion := value.toQString }
  | .UrlRole => { info with url := value.toQString }
  | .BytesReceivedRole => { info with bytesReceived := value.toLongLong }
  | .BytesTotalRole => { info with bytesTotal := value.toLongLong }
  | .TimestampRole => { info with timestamp := value.toLongLong }
  | .SpeedRole => { info with speed := value.toQString }
  | .DownloadingRole => { info with isDownloading := value.toBool }
  | .IncompleteRole => { info with isIncomplete := value.toBool }
  | .DownloadErrorRole => { info with downloadError := value.toQString }
  | .other => info

/-- The `switch (role)` of `ModelList::dataInternal`. -/
def dataInternal (info : ModelInfo) (role : Role) : QVariant :=
  match role with
  | .NameRole => .string info.name
  | .FilenameRole => .string info.filename
  | .DirpathRole => .string info.dirpath
  | .FilesizeRole => .string info.filesize
  | .Md5sumRole => .string info.md5sum
  | .CalcHashRole => .bool info.calcHash
  | .InstalledRole => .bool info.installed
  | .DefaultRole => .bool info.isDefault
  | .ChatGPTRole => .bool info.isChatGPT
  | .DisableGUIRole => .bool info.disableGUI
  | .DescriptionRole => .string info.description
  | .RequiresVersionRole => .string info.requiresVersion
  | .DeprecatedVersionRole => .string info.deprecatedVersion
  | .UrlRole => .string info.url
  | .BytesReceivedRole => .longlong info.bytesReceived
  | .BytesTotalRole => .longlong info.bytesTotal
  | .TimestampRole => .longlong info.timestamp
  | .SpeedRole => .string info.speed
  | .DownloadingRole => .bool info.isDownloading
  | .IncompleteRole => .bool info.isIncomplete
  | .DownloadErrorRole => .string info.downloadError
  | .other => .invalid

/-! ## Files -/

/-- A regular file on disk: its bytes and its modification time (ms since the epoch). -/
structure FileData where
  content : List Byte
  mtime : Int
  deriving DecidableEq, Repr

/-- The file system: the file found at each path, if any. -/
abbrev FileSystem := String → Option FileData

/-- The file system with the entry at `path` replaced (or removed, for `none`). -/
def FileSystem.set (fs : FileSystem) (path : String) (d : Option FileData) : FileSystem :=
  fun p => if p = path then d else fs p

/-- A `QFile` object: the path it names, whether it is open, and its cursor. -/
structure QFile where
  fileName : String
  isOpen : Bool := false
  pos : Nat := 0
  deriving DecidableEq, Repr

/-- The call `QFile::close()`. -/
def QFile.close (f : QFile) : QFile := { f with isOpen := false, pos := 0 }

/-- The call `QFile::open(QIODevice::ReadOnly)`: fails on an object that is
already open, on a missing file, and when the environment refuses (`ok = false`). -/
def QFile.openReadOnly (fs : FileSystem) (ok : Bool) (f : QFile) : Option QFile :=
  if !f.isOpen && (fs f.fileName).isSome && ok then some { f with isOpen := true, pos := 0 }
  else none

/-- The test `QFileInfo::exists()`. -/
def exists_ (fs : FileSystem) (path : String) : Bool := (fs path).isSome

/-- The size of the file at `path` (0 when there is none). -/
def fileSize (fs : FileSystem) (path : String) : Nat :=
  match fs path with
  | some d => d.content.length
  | none => 0

/-- The bytes of the file at `path` (none when there is no file). -/
def fileContent (fs : FileSystem) (path : String) : List Byte :=
  match fs path with
  | some d => d.content
  | none => []

/-! ## Transport -/

/-- A `QNetworkRequest` as `downloadModel` builds it. -/
structure QNetworkRequest where
  url : String
  /-- The attribute `QNetworkRequest::User`: the model file name. -/
  user : String
  /-- The raw header `range`. -/
  range : String
  deriving DecidableEq, Repr

/-- A `QNetworkReply` object: its identity and the request it answers. -/
structure QNetworkReply where
  id : Nat
  request : QNetworkRequest
  deriving DecidableEq, Repr

/-- The events sent to `Network::globalInstance()`. -/
inductive NetworkEvent where
  | downloadStarted (modelFile : String)
  | downloadCanceled (modelFile : String)
  | downloadFinished (modelFile : String) (success : Bool)
  | removeModel (modelFile : String)
  | installModel (modelFile : String)
  | downloadError (modelFile : String) (code : Int) (errorString : String)
  deriving DecidableEq, Repr

/-- The queued signal `requestHashAndSave`. -/
structure HashRequest where
  expectedHash : String
  saveFilePath : String
  tempFile : QFile
  modelReply : QNetworkReply
  deriving DecidableEq, Repr

/-- The queued signal `hashAndSaveFinished`. -/
structure HashResult where
  success : Bool
  error : String
  tempFile : QFile
  modelReply : QNetworkReply
  deriving DecidableEq, Repr

/-- The table `QMap<QNetworkReply*, QFile*>`. -/
abbrev ActiveDownloads := List (QNetworkReply × QFile)

/-- The call `QMap::insert`: entries are kept in key order, and an entry with
the same key is replaced. -/
def QMap.insert : ActiveDownloads → QNetworkReply → QFile → ActiveDownloads
  | [], k, v => [(k, v)]
  | (k1, v1) :: rest, k, v =>
    if k.id < k1.id then (k, v) :: (k1, v1) :: rest
    else if k.id = k1.id then (k, v) :: rest
    else (k1, v1) :: QMap.insert rest k v

/-- The call `QMap::remove`. -/
def QMap.remove (m : ActiveDownloads) (k : QNetworkReply) : ActiveDownloads :=
  m.filter fun e => e.1.id != k.id

/-- The call `QMap::value`; `none` is the null pointer given for a missing key. -/
def QMap.value (m : ActiveDownloads) (k : QNetworkReply) : Option QFile :=
  (m.find? fun e => e.1.id == k.id).map fun e => e.2

/-! ## State of the two singletons and of the disk -/

/-- The state of `Download`, of `ModelList`, and of the world around them. -/
structure State where
  /-- The time `Download` was constructed (ms since the epoch). -/
  m_startTime : Int
  m_activeDownloads : ActiveDownloads := []
  m_localModelsPath : String
  /-- The map `ModelList::m_modelMap` (the list `m_models` holds the same records). -/
  m_modelMap : String → Option ModelInfo
  fs : FileSystem
  /-- Identity given to the next `QNetworkReply`. -/
  nextReply : Nat := 0
  /-- Requests handed to `m_networkManager.get`, oldest first. -/
  sent : List QNetworkRequest := []
  /-- Emitted `requestHashAndSave` signals, oldest first. -/
  hashRequests : List HashRequest := []
  /-- Replies on which `abort()` was called. -/
  aborted : List Nat := []
  telemetry : List NetworkEvent := []
  /-- The `QFile` objects allocated by `downloadModel` and never stored in the table. -/
  orphans : List QFile := []

/-- The getter `ModelList::localModelsPath`. -/
def localModelsPath (st : State) : String := st.m_localModelsPath

/-- The function `ModelList::incompleteDownloadPath`. -/
def incompleteDownloadPath (st : State) (modelFile : String) : String :=
  localModelsPath st ++ "incomplete-" ++ modelFile

/-- The function `ModelList::contains`. -/
def contains (st : State) (filename : String) : Bool := (st.m_modelMap filename).isSome

/-- The function `ModelList::addModel`. -/
def addModel (st : State) (filename : String) : State :=
  if contains st filename then st
  else
    { st with m_modelMap := fun f =>
        if f = filename then some { filename := filename } else st.m_modelMap f }

/-- The function `ModelList::modelInfo`. -/
def modelInfo (st : State) (filename : String) : ModelInfo :=
  match st.m_modelMap filename with
  | none => {}
  | some info => info

/-- The function `ModelList::data(const QString &, int)`.  The source fetches
`m_modelMap.value(filename)`, a null pointer for a file name the map does not
hold, and hands it to `dataInternal`, every listed case of which reads a field
through it: `none` is that null-pointer dereference.  A role outside the
`switch` reads nothing and gives the invalid `QVariant`. -/
def data (st : State) (filename : String) (role : Role) : Option QVariant :=
  match st.m_modelMap filename with
  | some info => some (dataInternal info role)
  | none => if role = .other then some .invalid else none

/-- The function `ModelList::updateData`: the role's field is written, then
`installed` and `isIncomplete` are brought in line with the file system. -/
def updateData (st : State) (filename : String) (role : Role) (value : QVariant) : State :=
  match st.m_modelMap filename with
  | none => st
  | some info =>
    let info1 := info.setRole role value
    let fileExists := exists_ st.fs (info1.dirpath ++ info1.filename)
    let info2 := if info1.installed != fileExists then { info1 with installed := fileExists } else info1
    let incompleteExists := exists_ st.fs (incompleteDownloadPath st info2.filename)
    let info3 :=
      if info2.isIncomplete != incompleteExists then { info2 with isIncomplete := incompleteExists }
      else info2
    { st with m_modelMap := fun f => if f = filename then some info3 else st.m_modelMap f }

/-! ## The coordinator (`download.cpp`) -/

/-- The comparison `modTime < m_startTime` of two `QDateTime`; the time of a
missing file is an invalid `QDateTime`, which precedes every valid one. -/
def modTimeBefore (modTime : Option Int) (startTime : Int) : Bool :=
  match modTime with
  | none => true
  | some t => decide (t < startTime)

/-- The URL `downloadModel` requests: the one of the registry record, or the
default location when the record has none. -/
def requestUrl (info : ModelInfo) (modelFile : String) : String :=
  if !info.url.data.isEmpty then info.url else "http://gpt4all.io/models/" ++ modelFile

/-- The function `Download::downloadModel`.  `now` is the clock (it stamps a
temp file the call creates) and `openOk` tells whether
`tempFile->open(WriteOnly | Append)` succeeds. -/
def downloadModel (st : State) (modelFile : String) (now : Int) (openOk : Bool) : State :=
  let path := incompleteDownloadPath st modelFile
  let modTime := (st.fs path).map fun d => d.mtime
  if !openOk then
    let error := QString.arg (QString.arg "ERROR: Could not open temp file: %1 %2" path) modelFile
    updateData { st with orphans := st.orphans ++ [{ fileName := path }] }
      modelFile .DownloadErrorRole (.string error)
  else
    -- opening for append creates the file when it is absent and leaves the cursor at the end
    let fs1 : FileSystem :=
      match st.fs path with
      | some _ => st.fs
      | none => st.fs.set path (some { content := [], mtime := now })
    let size := fileSize fs1 path
    let incomplete_size : Nat :=
      if size > 0 then
        if modTimeBefore modTime st.m_startTime then
          if size ≥ 1024 * 1024 then size - 1024 * 1024 else 0
        else size
      else size
    let tempFile : QFile :=
      { fileName := path, isOpen := true, pos := if size > 0 then incomplete_size else size }
    let st1 := { st with fs := fs1 }
    if !contains st1 modelFile then
      { st1 with orphans := st1.orphans ++ [tempFile] }
    else
      let st2 := updateData st1 modelFile .DownloadingRole (.bool true)
      let info := modelInfo st2 modelFile
      let url := requestUrl info modelFile
      let request : QNetworkRequest :=
        { url := url, user := modelFile, range := "bytes=" ++ toString incomplete_size ++ "-" }
      let modelReply : QNetworkReply := { id := st2.nextReply, request := request }
      { st2 with
        telemetry := st2.telemetry ++ [.downloadStarted modelFile]
        sent := st2.sent ++ [request]
        nextReply := st2.nextReply + 1
        m_activeDownloads := QMap.insert st2.m_activeDownloads modelReply tempFile }

/-- The function `Download::cancelDownload`: the first entry of the table, in
key order, whose request URL ends with `modelFile` is aborted and removed. -/
def cancelDownload (st : State) (modelFile : String) : State :=
  match st.m_activeDownloads.find? fun e => endsWith e.1.request.url modelFile with
  | none => st
  | some (modelReply, _) =>
    let st1 :=
      { st with
        telemetry := st.telemetry ++ [.downloadCanceled modelFile]
        aborted := st.aborted ++ [modelReply.id]
        m_activeDownloads := QMap.remove st.m_activeDownloads modelReply }
    updateData st1 modelFile .DownloadingRole (.bool false)

/-- The function `Download::removeModel`. -/
def removeModel (st : State) (modelFile : String) : State :=
  let isChatGPT := "chatgpt-".data.isPrefixOf modelFile.data
  let filePath := localModelsPath st ++ modelFile ++ (if isChatGPT then ".txt" else "")
  let incompleteFile := incompleteDownloadPath st modelFile
  let st1 := if exists_ st.fs incompleteFile then { st with fs := st.fs.set incompleteFile none } else st
  let st2 :=
    if exists_ st1.fs filePath then
      { st1 with
        telemetry := st1.telemetry ++ [.removeModel modelFile]
        fs := st1.fs.set filePath none }
    else st1
  let st3 := updateData st2 modelFile .BytesReceivedRole (.longlong 0)
  let st4 := updateData st3 modelFile .BytesTotalRole (.longlong 0)
  let st5 := updateData st4 modelFile .TimestampRole (.longlong 0)
  let st6 := updateData st5 modelFile .SpeedRole (.string "")
  updateData st6 modelFile .DownloadErrorRole (.string "")

/-- The speed computed by `Download::handleDownloadProgress`, in `qint64`
arithmetic: `(bytesDifference / timeDifference) * 1000`. -/
def speedOf (bytesDifference timeDifference : Int) : Int :=
  (bytesDifference.tdiv timeDifference) * 1000

/-- The text shown for a speed.  `number x d` stands for
`QString::number(x / d, (char) 102, 2)`, a floating-point rendering that is
an argument of the embedding. -/
def speedText (number : Int → Nat → String) (speed : Int) : String :=
  if speed < 1024 then number speed 1 ++ " B/s"
  else if speed < 1024 * 1024 then number speed 1024 ++ " KB/s"
  else number speed (1024 * 1024) ++ " MB/s"

/-- The function `Download::handleDownloadProgress` for the sender
`modelReply`, whose response carries the raw header `contentRange` (empty when
absent); `currentUpdate` is `QDateTime::currentMSecsSinceEpoch()`.  The result
`none` is the fault of `ModelList::data` on a file name the registry lacks. -/
def handleDownloadProgress (number : Int → Nat → String) (st : State) (modelReply : QNetworkReply)
    (contentRange : String) (_bytesReceived bytesTotal : Int) (currentUpdate : Int) : Option State :=
  match QMap.value st.m_activeDownloads modelReply with
  | none => some st
  | some tempFile =>
    let bytesTotal :=
      if containsChar contentRange (Char.ofNat 47) then
        toLongLong (String.mk (splitLast (Char.ofNat 47) contentRange.data []))
      else bytesTotal
    let modelFilename := modelReply.request.user
    match data st modelFilename .TimestampRole with
    | none => none
    | some v =>
      let lastUpdate := v.toLongLong
      if currentUpdate - lastUpdate < 1000 then some st
      else
        match data st modelFilename .BytesReceivedRole with
        | none => none
        | some w =>
          let lastBytesReceived := w.toLongLong
          let currentBytesReceived : Int := tempFile.pos
          let timeDifference := currentUpdate - lastUpdate
          let bytesDifference := currentBytesReceived - lastBytesReceived
          let speed := speedOf bytesDifference timeDifference
          let st1 := updateData st modelFilename .BytesReceivedRole (.longlong currentBytesReceived)
          let st2 := updateData st1 modelFilename .BytesTotalRole (.longlong bytesTotal)
          let st3 := updateData st2 modelFilename .SpeedRole (.string (speedText number speed))
          some (updateData st3 modelFilename .TimestampRole (.longlong currentUpdate))

/-- The function `Download::handleModelDownloadFinished` for the sender
`modelReply`; `error` is `none` for `QNetworkReply::NoError` and otherwise
holds `modelReply->errorString()`.  The result `none` is the fault of calling
through the null `QFile *` the table gives for a reply it does not hold. -/
def handleModelDownloadFinished (st : State) (modelReply : QNetworkReply) (error : Option String) :
    Option State :=
  let modelFilename := modelReply.request.user
  match QMap.value st.m_activeDownloads modelReply with
  | none => none
  | some tempFile =>
    let st1 := { st with m_activeDownloads := QMap.remove st.m_activeDownloads modelReply }
    match error with
    | some errorString =>
      let st2 := updateData st1 modelFilename .DownloadingRole (.bool false)
      some (updateData st2 modelFilename .DownloadErrorRole (.string errorString))
    | none =>
      let tempFile := tempFile.close
      if !contains st1 modelFilename then some st1
      else
        let st2 := updateData st1 modelFilename .CalcHashRole (.bool true)
        let md5sum := (modelInfo st2 modelFilename).md5sum
        let saveFilePath := localModelsPath st2 ++ modelFilename
        some { st2 with hashRequests := st2.hashRequests ++
          [{ expectedHash := md5sum, saveFilePath := saveFilePath, tempFile := tempFile,
             modelReply := modelReply }] }

/-- The function `Download::handleHashAndSaveFinished`. -/
def handleHashAndSaveFinished (st : State) (r : HashResult) : State :=
  let modelFilename := r.modelReply.request.user
  let st1 := { st with telemetry := st.telemetry ++ [.downloadFinished modelFilename r.success] }
  let st2 := updateData st1 modelFilename .CalcHashRole (.bool false)
  let st3 := updateData st2 modelFilename .DownloadingRole (.bool false)
  if !r.success then updateData st3 modelFilename .DownloadErrorRole (.string r.error)
  else updateData st3 modelFilename .DownloadErrorRole (.string "")

/-- The bytes `QTextStream` writes for a text (UTF-8). -/
def utf8 (s : String) : List Byte := s.toUTF8.toList.map fun b => Fin.ofNat b.toNat

/-- The function `Download::installModel`; `openOk` tells whether the key file
can be opened for writing. -/
def installModel (st : State) (modelFile apiKey : String) (now : Int) (openOk : Bool) : State :=
  if apiKey.data.isEmpty then st
  else
    let st1 := { st with telemetry := st.telemetry ++ [.installModel modelFile] }
    let filePath := localModelsPath st1 ++ modelFile ++ ".txt"
    if openOk then
      { st1 with fs := st1.fs.set filePath (some { content := utf8 apiKey, mtime := now }) }
    else st1

/-- The function `Download::handleErrorOccurred` for the sender `modelReply`;
`locale` is how the default locale writes a number. -/
def handleErrorOccurred (st : State) (modelReply : QNetworkReply) (code : Int)
    (errorString : String) (locale : Int → String) : State :=
  let modelFilename := modelReply.request.user
  let error := QString.arg (QString.argNumber (QString.arg
    "ERROR: Network error occurred attempting to download %1 code: %2 errorString %3"
    modelFilename) code locale) errorString
  let st1 := updateData st modelFilename .DownloadErrorRole (.string error)
  let st2 := { st1 with telemetry := st1.telemetry ++ [.downloadError modelFilename code errorString] }
  cancelDownload st2 modelFilename

/-- The bytes that reach the file in the loop
`while (!modelReply->atEnd()) tempFile->write(modelReply->read(16384))`, for
the bytes `incoming` the reply holds and a device with room for `room` bytes,
run for at most `fuel` rounds, and the room left. -/
def drainLoop : Nat → List Byte → Nat → List Byte → Nat → List Byte × Nat
  | 0, _, _, written, room => (written, room)
  | fuel + 1, incoming, pos, written, room =>
    if pos ≥ incoming.length then (written, room)
    else
      let buffer := (incoming.drop pos).take 16384
      let w := buffer.take room
      drainLoop fuel incoming (pos + buffer.length) (written ++ w) (room - w.length)

/-- The function `Download::handleReadyRead` for the sender `modelReply`
holding the bytes `incoming`.  The temp file is open for append: what is
written goes to the end of the file.  The result `none` is the fault of
writing through the null `QFile *` of a reply the table does not hold. -/
def handleReadyRead (st : State) (modelReply : QNetworkReply) (incoming : List Byte) (room : Nat)
    (now : Int) : Option State :=
  match QMap.value st.m_activeDownloads modelReply with
  | none => none
  | some tempFile =>
    let written := (drainLoop incoming.length incoming 0 [] room).1
    let fs1 : FileSystem :=
      match st.fs tempFile.fileName with
      | some d =>
        if written.isEmpty then st.fs
        else st.fs.set tempFile.fileName (some { content := d.content ++ written, mtime := now })
      | none => st.fs
    some { st with
      fs := fs1
      m_activeDownloads := st.m_activeDownloads.map fun e =>
        if e.1.id == modelReply.id then (e.1, { e.2 with pos := e.2.pos + written.length }) else e }

/-! ## The worker (`HashAndSaveFile`) -/

/-- A `QCryptographicHash` object: the bytes fed to it so far. -/
structure QCryptographicHash where
  fed : List Byte := []
  deriving DecidableEq, Repr

/-- The call `QCryptographicHash::addData`. -/
def QCryptographicHash.addData (h : QCryptographicHash) (block : List Byte) : QCryptographicHash :=
  { fed := h.fed ++ block }

/-- The call `QCryptographicHash::result`, for the digest function `md5`. -/
def QCryptographicHash.result (md5 : List Byte → List Byte) (h : QCryptographicHash) : List Byte :=
  md5 h.fed

/-- The call `tempFile->read(16384)` at cursor `pos` of a file with bytes `content`. -/
def readBlock (content : List Byte) (pos : Nat) : List Byte := (content.drop pos).take 16384

/-- The loop `while (!tempFile->atEnd()) hash.addData(tempFile->read(16384))`,
run for at most `fuel` rounds; it gives the hash object and the cursor. -/
def hashLoop : Nat → List Byte → Nat → QCryptographicHash → QCryptographicHash × Nat
  | 0, _, pos, hash => (hash, pos)
  | fuel + 1, content, pos, hash =>
    if pos ≥ content.length then (hash, pos)
    else
      let block := readBlock content pos
      hashLoop fuel content (pos + block.length) (hash.addData block)

/-- The call `file.write(buffer)` on a device with room for `room` more bytes:
the bytes that reach the file (all of `buffer` when it fits). -/
def writeBlock (buffer : List Byte) (room : Nat) : List Byte := buffer.take room

/-- The loop `while (!tempFile->atEnd()) { buffer = tempFile->read(16384); file.write(buffer); }`,
run for at most `fuel` rounds; it gives the bytes of the destination, the
cursor of the temp file and the room left.  The value `file.write` returns is
not looked at. -/
def copyLoop : Nat → List Byte → Nat → List Byte → Nat → List Byte × Nat × Nat
  | 0, _, pos, dest, room => (dest, pos, room)
  | fuel + 1, content, pos, dest, room =>
    if pos ≥ content.length then (dest, pos, room)
    else
      let buffer := readBlock content pos
      let written := writeBlock buffer room
      copyLoop fuel content (pos + buffer.length) (dest ++ written) (room - written.length)

/-- What the environment decides during one run of `hashAndSave`. -/
structure HashEnv where
  /-- Whether the temp file can be opened for hashing. -/
  reopenOk : Bool := true
  /-- Whether the operating system lets the temp file be removed. -/
  removeOk : Bool := true
  /-- Whether the operating system lets the temp file be renamed. -/
  renameOk : Bool := true
  /-- Whether the temp file can be opened again for copying. -/
  reopenCopyOk : Bool := true
  /-- Whether the destination can be opened for writing. -/
  destOpenOk : Bool := true
  /-- The `QFile::FileError` code of a failed destination open. -/
  destError : Nat := 5
  /-- How the default locale writes a number. -/
  locale : Int → String := fun n => toString n
  /-- How many bytes the destination device still takes. -/
  destRoom : Nat
  /-- The clock (it stamps the destination the copy creates). -/
  now : Int := 0

/-- The call `tempFile->rename(saveFilePath)`: it fails when a file already
has the new name or when the environment refuses. -/
def renameSucceeds (env : HashEnv) (fs : FileSystem) (saveFilePath : String) : Bool :=
  env.renameOk && !exists_ fs saveFilePath

/-- The install step of `hashAndSave`, entered once the digest has matched and
the temp file has been closed: the rename, and the copy when the rename fails. -/
def installVerified (env : HashEnv) (fs : FileSystem) (saveFilePath : String) (closed : QFile)
    (modelReply : QNetworkReply) : HashResult × FileSystem :=
  let modelFilename := modelReply.request.user
  if renameSucceeds env fs saveFilePath then
    ({ success := true, error := "", tempFile := { closed with fileName := saveFilePath },
       modelReply := modelReply },
      (fs.set closed.fileName none).set saveFilePath (fs closed.fileName))
  else
    match closed.openReadOnly fs env.reopenCopyOk with
    | none =>
      let error := QString.arg (QString.arg "ERROR: Could not open temp file at finish: %1 %2"
        closed.fileName) modelFilename
      ({ success := false, error := error, tempFile := closed, modelReply := modelReply }, fs)
    | some reopened =>
      if env.destOpenOk then
        -- opening the destination for writing creates or truncates it
        let fs1 := fs.set saveFilePath (some { content := [], mtime := env.now })
        let source := fileContent fs1 reopened.fileName
        let (dest, _, _) := copyLoop source.length source reopened.pos [] env.destRoom
        ({ success := true, error := "", tempFile := reopened.close, modelReply := modelReply },
          fs1.set saveFilePath (some { content := dest, mtime := env.now }))
      else
        let errorString := QString.argNumber (QString.arg
          "ERROR: Could not save model to location: %1 failed with code %2" saveFilePath)
          env.destError env.locale
        ({ success := false, error := errorString, tempFile := reopened.close,
           modelReply := modelReply }, fs)

/-- The function `HashAndSaveFile::hashAndSave`, for the digest function
`md5`: the emitted `hashAndSaveFinished` signal and the file system it leaves.
`modelFilename` is the `User` attribute of the reply's request. -/
def hashAndSave (md5 : List Byte → List Byte) (env : HashEnv) (fs : FileSystem)
    (expectedHash saveFilePath : String) (tempFile : QFile) (modelReply : QNetworkReply) :
    HashResult × FileSystem :=
  let modelFilename := modelReply.request.user
  match tempFile.openReadOnly fs env.reopenOk with
  | none =>
    let error := QString.arg (QString.arg "ERROR: Could not open temp file for hashing: %1 %2"
      tempFile.fileName) modelFilename
    ({ success := false, error := error, tempFile := tempFile, modelReply := modelReply }, fs)
  | some opened =>
    let content := fileContent fs opened.fileName
    let (hash, _) := hashLoop content.length content opened.pos {}
    if toHex (hash.result md5) != expectedHash then
      let closed := opened.close
      let error := QString.arg (QString.arg (QString.arg
        "ERROR: Download error MD5SUM did not match: %1 != %2 for %3" (toHex (hash.result md5)))
        expectedHash) modelFilename
      -- the call `tempFile->remove()`, whose result is not looked at
      let fs1 := if env.removeOk then fs.set closed.fileName none else fs
      ({ success := false, error := error, tempFile := closed, modelReply := modelReply }, fs1)
    else
      installVerified env fs saveFilePath opened.close modelReply

/-- The check `Q_ASSERT(!tempFile->isOpen())` at the head of `hashAndSave`. -/
def hashAndSaveAssert (r : HashRequest) : Bool := !r.tempFile.isOpen

/-- The check `Q_ASSERT(!tempFile->isOpen())` at the head of `handleHashAndSaveFinished`. -/
def hashAndSaveFinishedAssert (r : HashResult) : Bool := !r.tempFile.isOpen

/-- The worker serving a queued request: `hashAndSave` on its four arguments. -/
def serve (md5 : List Byte → List Byte) (env : HashEnv) (fs : FileSystem) (r : HashRequest) :
    HashResult × FileSystem :=
  hashAndSave md5 env fs r.expectedHash r.saveFilePath r.tempFile r.modelReply

/-! ## Models found on disk (`modellist.cpp`) -/

/-- Whether the text `t` occurs in the list of characters. -/
def occursIn (t : List Char) : List Char → Bool
  | [] => t.isEmpty
  | c :: cs => t.isPrefixOf (c :: cs) || occursIn t cs

/-- The test `QString::contains` for a text. -/
def containsText (s t : String) : Bool := occursIn t.data s.data

/-- The test `QString::startsWith`. -/
def startsWith (s t : String) : Bool := t.data.isPrefixOf s.data

/-- The function `ModelList::updateModelsFromDirectory`.  `exePath` is the
directory of the application, `exeFiles` and `localFiles` are what
`entryList(QDir::Files)` gives for it and for the local models path, and
`toFileSize` is the size rendering `ModelList::toFileSize`. -/
def updateModelsFromDirectory (toFileSize : Nat → String) (st : State) (exePath : String)
    (exeFiles localFiles : List String) : State :=
  let localPath := localModelsPath st
  let fileNames := exeFiles.filter fun filename =>
    endsWith filename ".bin" && containsText filename "ggml"
  let st1 := fileNames.foldl (fun s f =>
    let filePath := exePath ++ f
    if !exists_ s.fs filePath then s
    else
      let s1 := if !contains s f then addModel s f else s
      let s2 := updateData s1 f .DirpathRole (.string exePath)
      updateData s2 f .FilesizeRole (.string (toFileSize (fileSize s.fs filePath)))) st
  if localPath != exePath then
    let fileNames := localFiles.filter fun filename =>
      (endsWith filename ".bin" && containsText filename "ggml")
        || (endsWith filename ".txt" && startsWith filename "chatgpt-")
    fileNames.foldl (fun s f =>
      let filePath := localPath ++ f
      if !exists_ s.fs filePath then s
      else
        let s1 := if !contains s f then addModel s f else s
        let s2 := updateData s1 f .ChatGPTRole (.bool (startsWith f "chatgpt-"))
        let s3 := updateData s2 f .DirpathRole (.string localPath)
        updateData s3 f .FilesizeRole (.string (toFileSize (fileSize s.fs filePath)))) st1
  else st1

/-! ## Release versions (`download.cpp`) -/

/-- The function `QString::split(sep)`, empty parts kept: the pieces between
the occurrences of `sep`. -/
def splitOn (sep : Char) : List Char → List Char → List (List Char)
  | [], acc => [acc.reverse]
  | c :: cs, acc => if c = sep then acc.reverse :: splitOn sep cs [] else splitOn sep cs (c :: acc)

/-- The function `QString::toInt()` (base 10): as `toLongLong`, within the range of `int`. -/
def toInt (s : String) : Int :=
  let cs := ((s.data.dropWhile Char.isWhitespace).reverse.dropWhile Char.isWhitespace).reverse
  let (neg, ds) :=
    match cs with
    | '-' :: r => (true, r)
    | '+' :: r => (false, r)
    | r => (false, r)
  match ds with
  | [] => 0
  | _ =>
    match digitsValue ds 0 with
    | none => 0
    | some n =>
      let v : Int := if neg then -(n : Int) else (n : Int)
      if -(2 ^ 31) ≤ v ∧ v ≤ 2 ^ 31 - 1 then v else 0

/-- The loop of `compareVersions` over the common indices of the two lists of
parts: `some r` when it returns `r`, `none` when it runs to its end. -/
def compareLoop : List String → List String → Option Bool
  | a :: as, b :: bs =>
    let aInt := toInt a
    let bInt := toInt b
    if aInt > bInt then some true
    else if aInt < bInt then some false
    else compareLoop as bs
  | _, _ => none

/-- The body of `compareVersions` on the two lists of parts. -/
def compareParts (aParts bParts : List String) : Bool :=
  match compareLoop aParts bParts with
  | some r => r
  | none => decide (aParts.length > bParts.length)

/-- The parts of a version: `split` at the dots. -/
def versionParts (a : String) : List String := (splitOn (Char.ofNat 46) a.data []).map String.mk

/-- The function `compareVersions`. -/
def compareVersions (a b : String) : Bool := compareParts (versionParts a) (versionParts b)

/-- The call `std::sort(begin, end, comp)`: an insertion sort, which puts `a`
before `b` unless `comp b a`. -/
def stdSort (comp : String → String → Bool) (l : List String) : List String :=
  l.insertionSort fun a b => comp b a = false

/-- The function `Download::hasNewerRelease`, for the keys of `m_releaseMap`
and the version of the application. -/
def hasNewerRelease (keys : List String) (currentVersion : String) : Bool :=
  match stdSort compareVersions keys with
  | [] => false
  | first :: _ => compareVersions first currentVersion

/-! ## The operations as one step function -/

/-- The operations of the coordinator and of the worker, with what the
environment supplies to each, and the two registry calls made on behalf of
the catalogue. -/
inductive Op where
  | downloadModel (modelFile : String) (now : Int) (openOk : Bool)
  | cancelDownload (modelFile : String)
  | installModel (modelFile apiKey : String) (now : Int) (openOk : Bool)
  | removeModel (modelFile : String)
  | handleErrorOccurred (modelReply : QNetworkReply) (code : Int) (errorString : String)
      (locale : Int → String)
  | handleDownloadProgress (modelReply : QNetworkReply) (contentRange : String)
      (bytesReceived bytesTotal currentUpdate : Int)
  | handleReadyRead (modelReply : QNetworkReply) (incoming : List Byte) (room : Nat) (now : Int)
  | handleModelDownloadFinished (modelReply : QNetworkReply) (error : Option String)
  | hashAndSave (env : HashEnv) (r : HashRequest)
  | handleHashAndSaveFinished (r : HashResult)
  | addModel (filename : String)
  | updateData (filename : String) (role : Role) (value : QVariant)

/-- One operation run on a state; `none` is a fault. -/
def run (md5 : List Byte → List Byte) (number : Int → Nat → String) : Op → State → Option State
  | .downloadModel f now openOk, st => some (downloadModel st f now openOk)
  | .cancelDownload f, st => some (cancelDownload st f)
  | .installModel f key now openOk, st => some (installModel st f key now openOk)
  | .removeModel f, st => some (removeModel st f)
  | .handleErrorOccurred reply code e locale, st =>
    some (handleErrorOccurred st reply code e locale)
  | .handleDownloadProgress reply cr br bt now, st => handleDownloadProgress number st reply cr br bt now
  | .handleReadyRead reply incoming room now, st => handleReadyRead st reply incoming room now
  | .handleModelDownloadFinished reply e, st => handleModelDownloadFinished st reply e
  | .hashAndSave env r, st => some { st with fs := (serve md5 env st.fs r).2 }
  | .handleHashAndSaveFinished r, st => some (handleHashAndSaveFinished st r)
  | .addModel f, st => some (addModel st f)
  | .updateData f role value, st => some (updateData st f role value)

/-- The sessions of the table that belong to `modelFile` (by the `User`
attribute of their request). -/
def sessionsFor (st : State) (modelFile : String) : ActiveDownloads :=
  st.m_activeDownloads.filter fun e => e.1.request.user == modelFile

/-! ## Reachable states -/

/-- The file names that have a session in the table, in table order. -/
def sessionOwners (st : State) : List String :=
  st.m_activeDownloads.map fun e => e.1.request.user

/-- The file names whose verification is pending: the emitted requests are
served in order, and the answer to the first `answered` of them has been
handled by `handleHashAndSaveFinished`. -/
def pendingOwners (st : State) (answered : Nat) : List String :=
  (st.hashRequests.drop answered).map fun r => r.modelReply.request.user

/-- The pair `(isDownloading, calcHash)` of the registry record of a file name. -/
def flags (st : State) (f : String) : Option (Bool × Bool) :=
  (st.m_modelMap f).map fun info => (info.isDownloading, info.calcHash)

/-- A state at rest: no session, no pending verification, and no record marked
as downloading or as being verified. -/
def Idle (st : State) (answered : Nat) : Prop :=
  st.m_activeDownloads = [] ∧ answered = st.hashRequests.length ∧
    ∀ f info, st.m_modelMap f = some info → info.isDownloading = false ∧ info.calcHash = false

/-- The states reached from a state at rest, with the number of verification
results handled so far.  `downloadModel` is called for a file name that has
neither a session nor a pending verification; `cancelDownload` is called with
a name for which the entry it finds by URL suffix, if any, is a session of
that name; `handleModelDownloadFinished` runs for a reply of the table;
the worker runs on an emitted request; `handleHashAndSaveFinished` receives
the worker's answer to the oldest request not yet answered, whatever the disk
the worker saw. -/
inductive Reach (md5 : List Byte → List Byte) : State → Nat → Prop where
  | idle (st : State) (n : Nat) : Idle st n → Reach md5 st n
  | download (st : State) (n : Nat) (f : String) (now : Int) (openOk : Bool) :
      Reach md5 st n → f ∉ sessionOwners st → f ∉ pendingOwners st n →
      Reach md5 (downloadModel st f now openOk) n
  | cancel (st : State) (n : Nat) (f : String) :
      Reach md5 st n →
      (∀ e, (st.m_activeDownloads.find? fun e => endsWith e.1.request.url f) = some e →
        e.1.request.user = f) →
      Reach md5 (cancelDownload st f) n
  | finished (st st1 : State) (n : Nat) (modelReply : QNetworkReply) (tempFile : QFile)
      (error : Option String) :
      Reach md5 st n → (modelReply, tempFile) ∈ st.m_activeDownloads →
      handleModelDownloadFinished st modelReply error = some st1 →
      Reach md5 st1 n
  | worker (st : State) (n : Nat) (env : HashEnv) (r : HashRequest) :
      Reach md5 st n → r ∈ st.hashRequests →
      Reach md5 { st with fs := (serve md5 env st.fs r).2 } n
  | verified (st : State) (n : Nat) (env : HashEnv) (fs0 : FileSystem) (r : HashRequest) :
      Reach md5 st n → st.hashRequests.get? n = some r →
      Reach md5 (handleHashAndSaveFinished st (serve md5 env fs0 r).1) (n + 1)

/-- The invariant, on the parts of the state it speaks of: the table, the
identity of the next reply, the names with a pending verification, and the
flags of the registry.  The replies of the table are distinct and older than
the next one; no name has two sessions, or two pending verifications, or a
session and a pending verification; a record has `isDownloading` set exactly
when its name has a session or a pending verification, and `calcHash` set
exactly when its name has a pending verification. -/
def InvOn (table : ActiveDownloads) (nextReply : Nat) (pending : List String)
    (fl : String → Option (Bool × Bool)) : Prop :=
  (table.map fun e => e.1.id).Nodup ∧
  (∀ e ∈ table, e.1.id < nextReply) ∧
  (table.map fun e => e.1.request.user).Nodup ∧
  pending.Nodup ∧
  (∀ f ∈ table.map fun e => e.1.request.user, f ∉ pending) ∧
  ∀ f p, fl f = some p →
    (p.1 = true ↔ (f ∈ table.map fun e => e.1.request.user) ∨ f ∈ pending) ∧
    (p.2 = true ↔ f ∈ pending)

/-- The invariant of the reachable states. -/
def Inv (st : State) (n : Nat) : Prop :=
  n ≤ st.hashRequests.length ∧
    InvOn st.m_activeDownloads st.nextReply (pendingOwners st n) (flags st)

/-! ## Concrete inputs -/

/-- A registry holding the single model `m.bin`, with no URL of its own. -/
def oneModel : String → Option ModelInfo :=
  fun f => if f = "m.bin" then some { filename := "m.bin", md5sum := "0a" } else none

/-- A disk holding a three-byte temp file for `m.bin`, written at time 2000. -/
def partialDisk : FileSystem :=
  fun p => if p = "/models/incomplete-m.bin" then some { content := [1, 2, 3], mtime := 2000 } else none

/-- A coordinator started at time 1000 with `m.bin` registered and partly downloaded. -/
def resumeState : State :=
  { m_startTime := 1000, m_localModelsPath := "/models/", m_modelMap := oneModel, fs := partialDisk }

/-- A toy digest, used to run the worker on concrete files: the sum of the bytes modulo 256. -/
def sumDigest (bs : List Byte) : List Byte := [bs.foldl (fun a b => a + b) 0]

/-- The closed `QFile` naming the temp file of `m.bin`. -/
def tempOfM : QFile := { fileName := "/models/incomplete-m.bin" }

/-- The reply of a download of `m.bin` from the default location. -/
def replyOfM : QNetworkReply :=
  { id := 0, request := { url := "http://gpt4all.io/models/m.bin", user := "m.bin", range := "bytes=3-" } }

/-- An environment in which every step of the worker succeeds. -/
def kindEnv : HashEnv := { destRoom := 1000, now := 5000 }

/-- The state `resumeState` after `downloadModel` for `m.bin`: one active session. -/
def activeState : State := downloadModel resumeState "m.bin" 3000 true

/-- The registry record of `m.bin` in `activeState`. -/
def activeInfo : ModelInfo :=
  { filename := "m.bin", md5sum := "0a", isDownloading := true, isIncomplete := true }

/-- A stand-in for the floating-point rendering of a speed: the whole part only. -/
def wholeNumber (x : Int) (d : Nat) : String := toString (x.tdiv d)

/-- A coordinator in the middle of a download of `m.bin`: the record was last
updated at time 10000 with 0 bytes, and the write cursor of the temp file is
at 1500. -/
def speedState : State :=
  { m_startTime := 1000, m_localModelsPath := "/models/"
    m_modelMap := fun f =>
      if f = "m.bin" then
        some { filename := "m.bin", isDownloading := true, isIncomplete := true, timestamp := 10000 }
      else none
    fs := fun p =>
      if p = "/models/incomplete-m.bin" then some { content := List.replicate 1500 0, mtime := 10900 }
      else none
    m_activeDownloads :=
      [(replyOfM, { fileName := "/models/incomplete-m.bin", isOpen := true, pos := 1500 })]
    nextReply := 1 }

/-- A registry holding `ggml-model.bin` and `model.bin`, neither with a URL of its own. -/
def twoModels : String → Option ModelInfo :=
  fun f =>
    if f = "ggml-model.bin" then some { filename := "ggml-model.bin" }
    else if f = "model.bin" then some { filename := "model.bin" }
    else none

/-- The state in which `ggml-model.bin` is being downloaded and `model.bin` is not. -/
def twoState : State :=
  downloadModel
    { m_startTime := 1000, m_localModelsPath := "/models/", m_modelMap := twoModels,
      fs := fun _ => none }
    "ggml-model.bin" 3000 true

/-- A registry whose record of `m.bin` names a URL that does not end with the file name. -/
def urlModel : String → Option ModelInfo :=
  fun f =>
    if f = "m.bin" then some { filename := "m.bin", url := "https://example.com/get?id=7" }
    else none

/-- The state in which `m.bin` is being downloaded from that URL. -/
def urlState : State :=
  downloadModel
    { m_startTime := 1000, m_localModelsPath := "/models/", m_modelMap := urlModel,
      fs := fun _ => none }
    "m.bin" 3000 true

/-- A disk holding the verified three-byte temp file of `m.bin` next to an
older installed `m.bin`, so that the rename is refused. -/
def staleDisk : FileSystem :=
  fun p =>
    if p = "/models/incomplete-m.bin" then some { content := [1, 2, 3], mtime := 2000 }
    else if p = "/models/m.bin" then some { content := [9], mtime := 100 }
    else none

/-- An environment whose destination device has room for two more bytes only. -/
def fullEnv : HashEnv := { destRoom := 2, now := 5000 }

/-- The coordinator with a temp file of 6 MiB for `m.bin`, written after the start time. -/
def sixMiBState : State :=
  { m_startTime := 1000, m_localModelsPath := "/models/", m_modelMap := oneModel,
    fs := fun p =>
      if p = "/models/incomplete-m.bin" then
        some { content := List.replicate 6291456 0, mtime := 2000 }
      else none }

/-- The reply of a download of `ghost.bin`, a file name `oneModel` does not hold. -/
def replyOfGhost : QNetworkReply :=
  { id := 0,
    request := { url := "http://gpt4all.io/models/ghost.bin", user := "ghost.bin", range := "bytes=0-" } }

/-- A coordinator whose table holds a session for `ghost.bin` while the
registry holds `m.bin` only. -/
def ghostState : State :=
  { m_startTime := 1000, m_localModelsPath := "/models/", m_modelMap := oneModel,
    fs := fun p =>
      if p = "/models/incomplete-ghost.bin" then some { content := [], mtime := 3000 } else none
    m_activeDownloads :=
      [(replyOfGhost, { fileName := "/models/incomplete-ghost.bin", isOpen := true, pos := 0 })]
    nextReply := 1 }

/-- A coordinator with `ggml-model.bin` registered and its download under way:
the local models path holds the temp file `incomplete-ggml-model.bin`. -/
def scanState : State :=
  { m_startTime := 1000, m_localModelsPath := "/models/"
    m_modelMap := fun f => if f = "ggml-model.bin" then some { filename := "ggml-model.bin" } else none
    fs := fun p =>
      if p = "/models/incomplete-ggml-model.bin" then some { content := [1, 2, 3], mtime := 2000 }
      else none }

/-- A stand-in for `ModelList::toFileSize`: the number of bytes. -/
def plainSize (n : Nat) : String := toString n ++ " bytes"

/-- A verification request for the temp file of `m.bin` that expects the digest it has. -/
def matchRequest : HashRequest :=
  { expectedHash := "06", saveFilePath := "/models/m.bin", tempFile := tempOfM, modelReply := replyOfM }

/-- A verification request for the temp file of `m.bin` that expects another digest. -/
def mismatchRequest : HashRequest :=
  { expectedHash := "0a", saveFilePath := "/models/m.bin", tempFile := tempOfM, modelReply := replyOfM }

/-- An environment in which the rename is refused and the destination does not open. -/
def stuckEnv : HashEnv := { renameOk := false, destOpenOk := false, destRoom := 1000, now := 5000 }

/-- The state `activeState` after its stream has completed without error:
the session is gone and the verification of `m.bin` has been requested. -/
def verifyingState : State :=
  (handleModelDownloadFinished activeState replyOfM none).getD activeState

/-- The registry record of `m.bin` in `verifyingState`. -/
def verifyingInfo : ModelInfo :=
  { filename := "m.bin", md5sum := "0a", isDownloading := true, isIncomplete := true,
    calcHash := true }

/-- A coordinator started at time 1000 whose catalogue entry for `m.bin`
carries the digest `06` of the three bytes of its temp file; the entry has no
directory recorded. -/
def catalogueState : State :=
  { m_startTime := 1000, m_localModelsPath := "/models/"
    m_modelMap := fun f => if f = "m.bin" then some { filename := "m.bin", md5sum := "06" } else none
    fs := partialDisk }

/-! ## Frame lemmas for the registry -/

theorem updateData_fs (st : State) (f : String) (r : Role) (v : QVariant) :
    (updateData st f r v).fs = st.fs := by
  unfold updateData; split <;> rfl

theorem updateData_activeDownloads (st : State) (f : String) (r : Role) (v : QVariant) :
    (updateData st f r v).m_activeDownloads = st.m_activeDownloads := by
  unfold updateData; split <;> rfl

theorem updateData_sent (st : State) (f : String) (r : Role) (v : QVariant) :
    (updateData st f r v).sent = st.sent := by
  unfold updateData; split <;> rfl

theorem updateData_hashRequests (st : State) (f : String) (r : Role) (v : QVariant) :
    (updateData st f r v).hashRequests = st.hashRequests := by
  unfold updateData; split <;> rfl

theorem updateData_aborted (st : State) (f : String) (r : Role) (v : QVariant) :
    (updateData st f r v).aborted = st.aborted := by
  unfold updateData; split <;> rfl

theorem updateData_telemetry (st : State) (f : String) (r : Role) (v : QVariant) :
    (updateData st f r v).telemetry = st.telemetry := by
  unfold updateData; split <;> rfl

theorem updateData_nextReply (st : State) (f : String) (r : Role) (v : QVariant) :
    (updateData st f r v).nextReply = st.nextReply := by
  unfold updateData; split <;> rfl

theorem updateData_localModelsPath (st : State) (f : String) (r : Role) (v : QVariant) :
    (updateData st f r v).m_localModelsPath = st.m_localModelsPath := by
  unfold updateData; split <;> rfl

theorem updateData_startTime (st : State) (f : String) (r : Role) (v : QVariant) :
    (updateData st f r v).m_startTime = st.m_startTime := by
  unfold updateData; split <;> rfl

theorem updateData_contains (st : State) (f : String) (r : Role) (v : QVariant) (g : String) :
    contains (updateData st f r v) g = contains st g := by
  unfold updateData contains
  split
  · rfl
  · next info h =>
    by_cases hg : g = f
    · subst hg; simp [h]
    · simp [hg]

/-! ## C1: resume offset -/

/-- C1. For a registry-known file name whose temp file opens, `downloadModel`
issues exactly one request, for that file, whose range header is `bytes=S-`
when the temp file (of size `S`) was not modified before `m_startTime`,
`bytes=(S - 1048576)-` (truncated subtraction, that is `max(0, S - 1048576)`)
when it was, and `bytes=0-` when the temp file is empty or is created by the
call. -/
theorem downloadModel_resume_offset (st : State) (modelFile : String) (now : Int)
    (hknown : contains st modelFile = true) :
    (∀ d, st.fs (incompleteDownloadPath st modelFile) = some d → ¬ d.mtime < st.m_startTime →
      (downloadModel st modelFile now true).sent = st.sent ++
        [{ url := requestUrl (modelInfo st modelFile) modelFile, user := modelFile,
           range := "bytes=" ++ toString d.content.length ++ "-" }]) ∧
    (∀ d, st.fs (incompleteDownloadPath st modelFile) = some d → d.mtime < st.m_startTime →
      (downloadModel st modelFile now true).sent = st.sent ++
        [{ url := requestUrl (modelInfo st modelFile) modelFile, user := modelFile,
           range := "bytes=" ++ toString (d.content.length - 1048576) ++ "-" }]) ∧
    ((st.fs (incompleteDownloadPath st modelFile) = none ∨
        fileSize st.fs (incompleteDownloadPath st modelFile) = 0) →
      (downloadModel st modelFile now true).sent = st.sent ++
        [{ url := requestUrl (modelInfo st modelFile) modelFile, user := modelFile,
           range := "bytes=0-" }]) := by
  have hurl0 : ∀ fs1 : FileSystem,
      (modelInfo (updateData { st with fs := fs1 } modelFile .DownloadingRole (.bool true))
        modelFile).url = (modelInfo st modelFile).url := by
    intro fs1
    unfold updateData modelInfo
    cases h : st.m_modelMap modelFile with
    | none => simp [h]
    | some info =>
      simp only [h, ModelInfo.setRole]
      simp only [ite_true]
      split_ifs <;> rfl
  have hurl : ∀ fs1 : FileSystem,
      requestUrl (modelInfo (updateData { st with fs := fs1 } modelFile .DownloadingRole
        (.bool true)) modelFile) modelFile = requestUrl (modelInfo st modelFile) modelFile := by
    intro fs1
    unfold requestUrl
    rw [hurl0 fs1]
  refine ⟨?_, ?_, ?_⟩
  · intro d hd hm
    have hc : contains { st with fs := st.fs } modelFile = true := hknown
    simp only [downloadModel, hd, Bool.not_true, Bool.false_eq_true, if_false, Option.map_some',
      modTimeBefore, fileSize, hc, updateData_sent, hurl, decide_eq_true_eq, hm]
    by_cases h0 : d.content.length > 0 <;> simp [h0]
  · intro d hd hm
    have hc : contains { st with fs := st.fs } modelFile = true := hknown
    simp only [downloadModel, hd, Bool.not_true, Bool.false_eq_true, if_false, Option.map_some',
      modTimeBefore, fileSize, hc, updateData_sent, hurl, decide_eq_true_eq, hm]
    by_cases h1 : d.content.length ≥ 1024 * 1024
    · have h0 : d.content.length > 0 := by omega
      simp [h0, h1]
    · have e : d.content.length - 1048576 = 0 := by omega
      by_cases h0 : d.content.length > 0
      · simp [h0, h1, e]
      · have e0 : d.content.length = 0 := by omega
        simp [e0]
  · intro h
    have hc : ∀ fs1 : FileSystem, contains { st with fs := fs1 } modelFile = true := fun _ => hknown
    cases hd : st.fs (incompleteDownloadPath st modelFile) with
    | none =>
      simp [downloadModel, hd, fileSize, FileSystem.set, hc, updateData_sent, hurl]
      rfl
    | some d =>
      have e0 : d.content.length = 0 := by simpa [fileSize, hd] using h
      simp [downloadModel, hd, fileSize, hc, updateData_sent, hurl, e0]
      rfl

/-- Witness for C1: with `m.bin` registered, a three-byte temp file written
after the start time makes `downloadModel` request `bytes=3-`, and one of
6 MiB makes it request `bytes=6291456-`. -/
theorem downloadModel_resume_offset_witness :
    contains resumeState "m.bin" = true ∧
      (downloadModel resumeState "m.bin" 3000 true).sent =
        [{ url := "http://gpt4all.io/models/m.bin", user := "m.bin", range := "bytes=3-" }] ∧
      (downloadModel sixMiBState "m.bin" 3000 true).sent =
        [{ url := "http://gpt4all.io/models/m.bin", user := "m.bin",
           range := "bytes=6291456-" }] := by
  refine ⟨by decide, (downloadModel_resume_offset resumeState "m.bin" 3000 (by decide)).1
    { content := [1, 2, 3], mtime := 2000 } (by decide) (by decide), ?_⟩
  rw [(downloadModel_resume_offset sixMiBState "m.bin" 3000 (by decide)).1
    { content := List.replicate 6291456 0, mtime := 2000 } rfl (by decide)]
  simp only [List.length_replicate]
  decide

/-! ## C2: session uniqueness -/

theorem QMap.insert_fresh (m : ActiveDownloads) (k : QNetworkReply) (v : QFile)
    (h : ∀ e ∈ m, e.1.id < k.id) : QMap.insert m k v = m ++ [(k, v)] := by
  induction m with
  | nil => rfl
  | cons e rest ih =>
    obtain ⟨k1, v1⟩ := e
    have h1 : k1.id < k.id := h (k1, v1) (List.mem_cons_self _ _)
    have h2 : ¬ k.id < k1.id := by omega
    have h3 : ¬ k.id = k1.id := by omega
    simp only [QMap.insert, h2, h3, if_false, List.cons_append]
    rw [ih fun e he => h e (List.mem_cons_of_mem _ he)]

theorem downloadModel_known (st : State) (modelFile : String) (now : Int)
    (hknown : contains st modelFile = true) :
    ∃ (req : QNetworkRequest) (tempFile : QFile),
      (downloadModel st modelFile now true).m_activeDownloads =
        QMap.insert st.m_activeDownloads { id := st.nextReply, request := req } tempFile ∧
      req.user = modelFile ∧
      (downloadModel st modelFile now true).nextReply = st.nextReply + 1 ∧
      (downloadModel st modelFile now true).sent = st.sent ++ [req] ∧
      ∀ g, contains (downloadModel st modelFile now true) g = contains st g := by
  have hc : ∀ fs1 : FileSystem, contains { st with fs := fs1 } modelFile = true := fun _ => hknown
  refine ⟨?req, ?tf, ?h1, ?h2, ?h3, ?h4, ?h5⟩
  case h1 =>
    simp only [downloadModel, Bool.not_true, Bool.false_eq_true, if_false, hc,
      updateData_activeDownloads, updateData_nextReply]
    exact rfl
  case h2 => rfl
  case h3 =>
    simp only [downloadModel, Bool.not_true, Bool.false_eq_true, if_false, hc,
      updateData_nextReply]
  case h4 =>
    simp only [downloadModel, Bool.not_true, Bool.false_eq_true, if_false, hc, updateData_sent]
  case h5 =>
    intro g
    simp only [downloadModel, Bool.not_true, Bool.false_eq_true, if_false, hc]
    unfold contains
    simp only
    exact updateData_contains _ _ _ _ g

theorem downloadModel_known_fresh (st : State) (modelFile : String) (now : Int)
    (hknown : contains st modelFile = true)
    (hfresh : ∀ e ∈ st.m_activeDownloads, e.1.id < st.nextReply) :
    ∃ (req : QNetworkRequest) (tempFile : QFile),
      (downloadModel st modelFile now true).m_activeDownloads =
        st.m_activeDownloads ++ [({ id := st.nextReply, request := req }, tempFile)] ∧
      req.user = modelFile ∧
      (downloadModel st modelFile now true).nextReply = st.nextReply + 1 ∧
      (downloadModel st modelFile now true).sent = st.sent ++ [req] ∧
      contains (downloadModel st modelFile now true) modelFile = true := by
  obtain ⟨req, tf, h1, h2, h3, h4, h5⟩ := downloadModel_known st modelFile now hknown
  refine ⟨req, tf, ?_, h2, h3, h4, ?_⟩
  · rw [h1]
    exact QMap.insert_fresh _ _ _ hfresh
  · rw [h5]
    exact hknown

/-- C2 (as the code behaves). `downloadModel` has no check for a session that
is already active: for a registry-known file name whose temp file opens both
times, two calls in a row issue two requests and leave two more sessions for
that file in the table, each under its own reply; the keys of the table stay
pairwise distinct. -/
theorem downloadModel_twice_two_sessions (st : State) (modelFile : String) (now1 now2 : Int)
    (hknown : contains st modelFile = true)
    (hfresh : ∀ e ∈ st.m_activeDownloads, e.1.id < st.nextReply)
    (hnodup : (st.m_activeDownloads.map fun e => e.1.id).Nodup) :
    (downloadModel (downloadModel st modelFile now1 true) modelFile now2 true).sent.length =
        st.sent.length + 2 ∧
      (sessionsFor (downloadModel (downloadModel st modelFile now1 true) modelFile now2 true)
          modelFile).length = (sessionsFor st modelFile).length + 2 ∧
      ((downloadModel (downloadModel st modelFile now1 true) modelFile now2 true).m_activeDownloads.map
          fun e => e.1.id).Nodup := by
  obtain ⟨req1, tf1, a1, u1, n1, s1, c1⟩ :=
    downloadModel_known_fresh st modelFile now1 hknown hfresh
  have hfresh1 : ∀ e ∈ (downloadModel st modelFile now1 true).m_activeDownloads,
      e.1.id < (downloadModel st modelFile now1 true).nextReply := by
    intro e he
    rw [a1] at he
    rw [n1]
    rcases List.mem_append.mp he with h | h
    · exact Nat.lt_succ_of_lt (hfresh e h)
    · simp only [List.mem_singleton] at h
      subst h
      exact Nat.lt_succ_self _
  obtain ⟨req2, tf2, a2, u2, n2, s2, -⟩ :=
    downloadModel_known_fresh (downloadModel st modelFile now1 true) modelFile now2 c1 hfresh1
  refine ⟨?_, ?_, ?_⟩
  · rw [s2, s1]
    simp
  · unfold sessionsFor
    rw [a2, a1, n1]
    simp [List.filter_append, u1, u2]
  · rw [a2, a1, n1]
    simp only [List.map_append, List.map_cons, List.map_nil, List.append_assoc, List.singleton_append]
    rw [List.nodup_append]
    refine ⟨hnodup, by simp, ?_⟩
    intro a ha hb
    obtain ⟨e, he, rfl⟩ := List.mem_map.mp ha
    have := hfresh e he
    simp only [List.mem_cons, List.mem_singleton] at hb
    rcases hb with h | h | h
    · omega
    · omega
    · exact absurd h (List.not_mem_nil _)

/-- Witness for C2 (amended): from the state with no session at all, two calls
for `m.bin` leave two sessions for it. -/
theorem downloadModel_twice_two_sessions_witness :
    contains resumeState "m.bin" = true ∧
      (sessionsFor (downloadModel (downloadModel resumeState "m.bin" 3000 true) "m.bin" 4000 true)
        "m.bin").length = (sessionsFor resumeState "m.bin").length + 2 :=
  ⟨by decide, (downloadModel_twice_two_sessions resumeState "m.bin" 3000 4000 (by decide)
    (by decide) (by decide)).2.1⟩

/-- C2, counterexample. With `m.bin` registered, a second `downloadModel` right
after the first does not fail: it issues a second request, and the table then
holds two sessions for `m.bin`, not one. -/
theorem downloadModel_twice_counterexample :
    ¬ ((downloadModel (downloadModel resumeState "m.bin" 3000 true) "m.bin" 4000 true).sent =
          (downloadModel resumeState "m.bin" 3000 true).sent ∧
        (sessionsFor (downloadModel (downloadModel resumeState "m.bin" 3000 true) "m.bin" 4000 true)
          "m.bin").length = 1) := by
  decide

/-! ## C3: digest verification -/

theorem hashLoop_spec (content : List Byte) :
    ∀ (fuel pos : Nat) (hash : QCryptographicHash), pos ≤ content.length →
      content.length - pos ≤ fuel →
      hashLoop fuel content pos hash = ({ fed := hash.fed ++ content.drop pos }, content.length) := by
  intro fuel
  induction fuel with
  | zero =>
    intro pos hash hle hfuel
    have hp : pos = content.length := by omega
    subst hp
    simp [hashLoop]
  | succ n ih =>
    intro pos hash hle hfuel
    by_cases hend : pos ≥ content.length
    · have hp : pos = content.length := by omega
      subst hp
      simp [hashLoop]
    · have hlt : pos < content.length := by omega
      have hlen : (readBlock content pos).length = min 16384 (content.length - pos) := by
        simp [readBlock, List.length_take]
      simp only [hashLoop, hend, if_false]
      rw [ih _ _ (by rw [hlen]; omega) (by rw [hlen]; omega)]
      have hsplit : readBlock content pos ++ content.drop (pos + (readBlock content pos).length) =
          content.drop pos := by
        rw [← List.drop_drop]
        unfold readBlock
        rw [List.length_take, List.length_drop]
        by_cases hbig : 16384 ≤ content.length - pos
        · rw [Nat.min_eq_left hbig]
          exact List.take_append_drop _ _
        · have hsmall : content.length - pos ≤ 16384 := by omega
          rw [Nat.min_eq_right hsmall]
          have h1 : (List.drop pos content).length ≤ 16384 := by
            rw [List.length_drop]; exact hsmall
          have h2 : (List.drop pos content).length ≤ content.length - pos := by
            rw [List.length_drop]
          rw [List.take_of_length_le h1, List.drop_of_length_le h2, List.append_nil]
      simp only [QCryptographicHash.addData, List.append_assoc, hsplit]

theorem openReadOnly_some (fs : FileSystem) (ok : Bool) (f opened : QFile)
    (h : f.openReadOnly fs ok = some opened) :
    opened = { f with isOpen := true, pos := 0 } ∧ f.isOpen = false ∧ (fs f.fileName).isSome = true := by
  unfold QFile.openReadOnly at h
  split at h
  · next hc =>
    simp only [Bool.and_eq_true, Bool.not_eq_true'] at hc
    refine ⟨(Option.some.inj h).symm, hc.1.1, hc.1.2⟩
  · exact absurd h (by simp)

/-- Digest verification on every input. Once the temp file has been reopened,
`hashAndSave` feeds the digest in 16384-byte blocks and the digest it obtains
is the digest of the whole content; when its lowercase hex form equals the
expected digest the run is the install step, and otherwise the run reports
failure, with the text the three chained calls of `QString::arg` give for the
computed digest, the expected digest and the file name, and removes the temp
file when the operating system lets it. -/
theorem hashAndSave_digest (md5 : List Byte → List Byte) (env : HashEnv) (fs : FileSystem)
    (expectedHash saveFilePath : String) (tempFile opened : QFile) (modelReply : QNetworkReply)
    (hopen : tempFile.openReadOnly fs env.reopenOk = some opened) :
    (hashLoop (fileContent fs tempFile.fileName).length (fileContent fs tempFile.fileName) 0
        {}).1.result md5 = md5 (fileContent fs tempFile.fileName) ∧
    (toHex (md5 (fileContent fs tempFile.fileName)) = expectedHash →
      hashAndSave md5 env fs expectedHash saveFilePath tempFile modelReply =
        installVerified env fs saveFilePath opened.close modelReply) ∧
    (toHex (md5 (fileContent fs tempFile.fileName)) ≠ expectedHash →
      hashAndSave md5 env fs expectedHash saveFilePath tempFile modelReply =
        ({ success := false,
           error := QString.arg (QString.arg (QString.arg
             "ERROR: Download error MD5SUM did not match: %1 != %2 for %3"
             (toHex (md5 (fileContent fs tempFile.fileName)))) expectedHash)
             modelReply.request.user,
           tempFile := opened.close, modelReply := modelReply },
          if env.removeOk = true then fs.set tempFile.fileName none else fs)) := by
  obtain ⟨ho, -, -⟩ := openReadOnly_some fs env.reopenOk tempFile opened hopen
  have hloop := hashLoop_spec (fileContent fs tempFile.fileName)
    (fileContent fs tempFile.fileName).length 0 {} (Nat.zero_le _) (by omega)
  have hname : opened.fileName = tempFile.fileName := by rw [ho]
  have hpos : opened.pos = 0 := by rw [ho]
  refine ⟨?_, ?_, ?_⟩
  · rw [hloop]
    simp [QCryptographicHash.result]
  · intro heq
    unfold hashAndSave
    simp only [hopen, hname, hpos, hloop, QCryptographicHash.result, List.nil_append,
      List.drop_zero, heq, bne_self_eq_false, Bool.false_eq_true, if_false]
  · intro hne
    unfold hashAndSave
    have hb : (toHex (md5 (fileContent fs tempFile.fileName)) != expectedHash) = true := by
      simpa [bne_iff_ne] using hne
    simp only [hopen, hname, hpos, hloop, QCryptographicHash.result, List.nil_append,
      List.drop_zero, hb, if_true, QFile.close]

/-- On a concrete run: the three-byte temp file of `m.bin` has digest `06`
under the toy digest, and with that expected value the run is the install
step. -/
theorem hashAndSave_digest_witness :
    tempOfM.openReadOnly partialDisk kindEnv.reopenOk =
        some { fileName := "/models/incomplete-m.bin", isOpen := true, pos := 0 } ∧
      hashAndSave sumDigest kindEnv partialDisk "06" "/models/m.bin" tempOfM replyOfM =
        installVerified kindEnv partialDisk "/models/m.bin"
          (QFile.close { fileName := "/models/incomplete-m.bin", isOpen := true, pos := 0 })
          replyOfM :=
  ⟨by decide, (hashAndSave_digest sumDigest kindEnv partialDisk "06" "/models/m.bin" tempOfM
    { fileName := "/models/incomplete-m.bin", isOpen := true, pos := 0 } replyOfM
    (by decide)).2.1 (by decide)⟩

/-! ## C6: throttle -/

theorem updateData_known (st : State) (f : String) (r : Role) (v : QVariant) (info : ModelInfo)
    (h : st.m_modelMap f = some info) :
    ∃ info1, (updateData st f r v).m_modelMap f = some info1 ∧
      info1.timestamp = (info.setRole r v).timestamp ∧
      info1.isDownloading = (info.setRole r v).isDownloading ∧
      info1.downloadError = (info.setRole r v).downloadError := by
  unfold updateData
  simp only [h, if_true]
  refine ⟨_, rfl, ?_, ?_, ?_⟩ <;> split_ifs <;> rfl

/-- C6 (as the code behaves). A progress notification that arrives less than
1000 ms after the time stamp the registry holds for the file changes nothing
at all, so none of `bytesReceived`, `bytesTotal`, `speed`, `timestamp` is
written; and after a notification at `t1` that did write (it was not
throttled, so the registry holds `t1`), one at `t2` with `t2 - t1 < 1000`
changes nothing. -/
theorem handleDownloadProgress_throttle (number : Int → Nat → String) (st : State)
    (modelReply : QNetworkReply) (contentRange : String) (bytesReceived bytesTotal : Int)
    (info : ModelInfo) (hknown : st.m_modelMap modelReply.request.user = some info) :
    (∀ currentUpdate : Int, currentUpdate - info.timestamp < 1000 →
      handleDownloadProgress number st modelReply contentRange bytesReceived bytesTotal
        currentUpdate = some st) ∧
    (∀ (t1 t2 : Int) (tempFile : QFile) (contentRange2 : String) (bytesReceived2 bytesTotal2 : Int),
      QMap.value st.m_activeDownloads modelReply = some tempFile →
      ¬ t1 - info.timestamp < 1000 → t2 - t1 < 1000 →
      ∃ st1, handleDownloadProgress number st modelReply contentRange bytesReceived bytesTotal t1
          = some st1 ∧
        handleDownloadProgress number st1 modelReply contentRange2 bytesReceived2 bytesTotal2 t2
          = some st1) := by
  have hthrottle : ∀ (s : State) (i : ModelInfo) (cr : String) (br bt now : Int),
      s.m_modelMap modelReply.request.user = some i → now - i.timestamp < 1000 →
      handleDownloadProgress number s modelReply cr br bt now = some s := by
    intro s i cr br bt now hi hlt
    unfold handleDownloadProgress
    cases hv : QMap.value s.m_activeDownloads modelReply with
    | none => rfl
    | some tf =>
      simp only [data, hi, dataInternal, QVariant.toLongLong, hlt, if_true]
  refine ⟨fun now hlt => hthrottle st info _ _ _ now hknown hlt, ?_⟩
  intro t1 t2 tempFile cr2 br2 bt2 hv hnot hlt
  obtain ⟨i1, h1, -⟩ := updateData_known st modelReply.request.user .BytesReceivedRole
    (.longlong (tempFile.pos : Int)) info hknown
  obtain ⟨i2, h2, -⟩ := updateData_known _ modelReply.request.user .BytesTotalRole
    (.longlong (if containsChar contentRange (Char.ofNat 47) then
        toLongLong (String.mk (splitLast (Char.ofNat 47) contentRange.data []))
      else bytesTotal)) i1 h1
  obtain ⟨i3, h3, -⟩ := updateData_known _ modelReply.request.user .SpeedRole
    (.string (speedText number (speedOf ((tempFile.pos : Int) - info.bytesReceived)
      (t1 - info.timestamp)))) i2 h2
  obtain ⟨i4, h4, ht, -⟩ := updateData_known _ modelReply.request.user .TimestampRole
    (.longlong t1) i3 h3
  have key : ∃ st1, st1.m_modelMap modelReply.request.user = some i4 ∧
      handleDownloadProgress number st modelReply contentRange bytesReceived bytesTotal t1
        = some st1 :=
    ⟨_, h4, by
      unfold handleDownloadProgress
      simp only [hv, data, hknown, dataInternal, QVariant.toLongLong, hnot, if_false]⟩
  obtain ⟨st1, hm, hs⟩ := key
  refine ⟨st1, hs, hthrottle st1 i4 _ _ _ _ hm ?_⟩
  rw [ht]
  simpa [ModelInfo.setRole, QVariant.toLongLong] using hlt

/-- Witness for C6 (amended): in `activeState` the record of `m.bin` has time stamp 0, and
a notification at time 500 leaves the state as it is. -/
theorem handleDownloadProgress_throttle_witness :
    activeState.m_modelMap replyOfM.request.user = some activeInfo ∧
      handleDownloadProgress wholeNumber activeState replyOfM "bytes 3-9/10" 4 7 500 =
        some activeState :=
  ⟨by decide, (handleDownloadProgress_throttle wholeNumber activeState replyOfM "bytes 3-9/10" 4 7
    activeInfo (by decide)).1 500 (by decide)⟩

/-! ## C7: speed -/

/-- C7, on a concrete run. With 1500 bytes written over 1000 ms the handler
computes `(1500 / 1000) * 1000 = 1000` bytes per second in integer arithmetic,
not 1500, and records the text for 1000. -/
theorem handleDownloadProgress_speed_truncates :
    speedOf (1500 - 0) (11000 - 10000) = 1000 ∧
      ((handleDownloadProgress wholeNumber speedState replyOfM "" 1500 1500 11000).bind fun s =>
        (s.m_modelMap "m.bin").map fun i => (i.speed, i.bytesReceived, i.timestamp)) =
          some ("1000 B/s", 1500, 11000) := by
  decide

/-! ## C8, C9: cancel -/

/-- C8, on a concrete run. No session belongs to `model.bin`, yet
`cancelDownload` for it aborts and removes the session of `ggml-model.bin`,
whose URL ends with `model.bin`, and leaves that file marked as downloading. -/
theorem cancelDownload_other_session :
    sessionsFor twoState "model.bin" = [] ∧
      (sessionsFor twoState "ggml-model.bin").length = 1 ∧
      (cancelDownload twoState "model.bin").m_activeDownloads = [] ∧
      (cancelDownload twoState "model.bin").aborted = [0] ∧
      ((cancelDownload twoState "model.bin").m_modelMap "ggml-model.bin").map
        (fun i => i.isDownloading) = some true := by
  decide

/-- C9, on a concrete run. The session of `m.bin` was started by
`downloadModel` with the URL the registry gives, which does not end with
`m.bin`; `cancelDownload` for `m.bin` finds no session: the table keeps it, no
reply is aborted, and the file stays marked as downloading. -/
theorem cancelDownload_custom_url_keeps_session :
    (sessionsFor urlState "m.bin").length = 1 ∧
      (cancelDownload urlState "m.bin").m_activeDownloads = urlState.m_activeDownloads ∧
      (sessionsFor (cancelDownload urlState "m.bin") "m.bin").length = 1 ∧
      (cancelDownload urlState "m.bin").aborted = [] ∧
      ((cancelDownload urlState "m.bin").m_modelMap "m.bin").map (fun i => i.isDownloading) =
        some true := by
  decide

/-! ## C4, C5: the copy fallback -/

/-- C4, on a concrete run. The rename is refused, the copy succeeds and
`hashAndSave` reports success; the destination holds the content, but the temp
file is still on disk: the copy branch never removes it. -/
theorem hashAndSave_copy_keeps_temp :
    renameSucceeds kindEnv staleDisk "/models/m.bin" = false ∧
      (hashAndSave sumDigest kindEnv staleDisk "06" "/models/m.bin" tempOfM replyOfM).1.success
        = true ∧
      (hashAndSave sumDigest kindEnv staleDisk "06" "/models/m.bin" tempOfM replyOfM).2
        "/models/m.bin" = some { content := [1, 2, 3], mtime := 5000 } ∧
      (hashAndSave sumDigest kindEnv staleDisk "06" "/models/m.bin" tempOfM replyOfM).2
        "/models/incomplete-m.bin" = some { content := [1, 2, 3], mtime := 2000 } := by
  decide

/-- C5, on a concrete run. The rename is refused and the destination device
takes two of the three bytes: the block write is short, its result is not
looked at, and `hashAndSave` reports success with an empty error text over a
truncated destination. -/
theorem hashAndSave_short_write_reports_success :
    renameSucceeds fullEnv staleDisk "/models/m.bin" = false ∧
      writeBlock (readBlock [1, 2, 3] 0) fullEnv.destRoom = [1, 2] ∧
      (hashAndSave sumDigest fullEnv staleDisk "06" "/models/m.bin" tempOfM replyOfM).1.success
        = true ∧
      (hashAndSave sumDigest fullEnv staleDisk "06" "/models/m.bin" tempOfM replyOfM).1.error
        = "" ∧
      (hashAndSave sumDigest fullEnv staleDisk "06" "/models/m.bin" tempOfM replyOfM).2
        "/models/m.bin" = some { content := [1, 2], mtime := 5000 } := by
  decide

/-! ## C10: transport failure -/

theorem QMap.remove_not_mem (m : ActiveDownloads) (k : QNetworkReply) :
    ∀ e ∈ QMap.remove m k, e.1.id ≠ k.id := by
  intro e he
  unfold QMap.remove at he
  simpa using (List.mem_filter.mp he).2

theorem QMap.value_remove (m : ActiveDownloads) (k : QNetworkReply) :
    QMap.value (QMap.remove m k) k = none := by
  unfold QMap.value
  have h : (QMap.remove m k).find? (fun e => e.1.id == k.id) = none := by
    rw [List.find?_eq_none]
    intro e he
    have := QMap.remove_not_mem m k e he
    simpa using this
  rw [h]
  rfl

/-- C10. When the transfer of an active session finishes with a transport
error, `handleModelDownloadFinished` returns a state in which the session is
gone from the table, the record of the file (when the registry has one) has
`isDownloading = false` and `downloadError` equal to the error text, no
verification request has been added, and the disk is as before. -/
theorem handleModelDownloadFinished_error (st : State) (modelReply : QNetworkReply)
    (errorString : String) (tempFile : QFile)
    (hactive : QMap.value st.m_activeDownloads modelReply = some tempFile) :
    ∃ st1, handleModelDownloadFinished st modelReply (some errorString) = some st1 ∧
      st1.m_activeDownloads = QMap.remove st.m_activeDownloads modelReply ∧
      QMap.value st1.m_activeDownloads modelReply = none ∧
      (∀ e ∈ st1.m_activeDownloads, e.1.id ≠ modelReply.id) ∧
      (∀ info, st.m_modelMap modelReply.request.user = some info →
        ∃ info1, st1.m_modelMap modelReply.request.user = some info1 ∧
          info1.isDownloading = false ∧ info1.downloadError = errorString) ∧
      st1.hashRequests = st.hashRequests ∧
      st1.sent = st.sent ∧
      st1.fs = st.fs := by
  have hrun : handleModelDownloadFinished st modelReply (some errorString) =
      some (updateData (updateData
        { st with m_activeDownloads := QMap.remove st.m_activeDownloads modelReply }
        modelReply.request.user .DownloadingRole (.bool false))
        modelReply.request.user .DownloadErrorRole (.string errorString)) := by
    simp only [handleModelDownloadFinished, hactive]
  refine ⟨_, hrun, ?_, ?_, ?_, ?_, ?_, ?_, ?_⟩
  · simp only [updateData_activeDownloads]
  · simp only [updateData_activeDownloads]
    exact QMap.value_remove _ _
  · simp only [updateData_activeDownloads]
    exact QMap.remove_not_mem _ _
  · intro info hinfo
    obtain ⟨i1, h1, -, hd1, -⟩ := updateData_known
      { st with m_activeDownloads := QMap.remove st.m_activeDownloads modelReply }
      modelReply.request.user .DownloadingRole (.bool false) info hinfo
    obtain ⟨i2, h2, -, hd2, he2⟩ := updateData_known _ modelReply.request.user
      .DownloadErrorRole (.string errorString) i1 h1
    refine ⟨i2, h2, ?_, ?_⟩
    · rw [hd2]
      simpa [ModelInfo.setRole, QVariant.toBool] using hd1
    · rw [he2]
      simp [ModelInfo.setRole, QVariant.toQString]
  · simp only [updateData_hashRequests]
  · simp only [updateData_sent]
  · simp only [updateData_fs]

/-- Witness for C10: the session of `m.bin` in `activeState` fails with a
transport error; the table is then empty and the record carries the text. -/
theorem handleModelDownloadFinished_error_witness :
    QMap.value activeState.m_activeDownloads replyOfM =
        some { fileName := "/models/incomplete-m.bin", isOpen := true, pos := 3 } ∧
      (handleModelDownloadFinished activeState replyOfM (some "Connection closed")).map
        (fun s => (s.m_activeDownloads, s.hashRequests,
          (s.m_modelMap "m.bin").map fun i => (i.isDownloading, i.downloadError))) =
        some ([], [], some (false, "Connection closed")) := by
  refine ⟨by decide, ?_⟩
  obtain ⟨st1, hrun, htab, -, -, hreg, hq, -, -⟩ :=
    handleModelDownloadFinished_error activeState replyOfM "Connection closed"
      { fileName := "/models/incomplete-m.bin", isOpen := true, pos := 3 } (by decide)
  obtain ⟨i1, hi, hd, he⟩ := hreg activeInfo (by decide)
  have hi1 : st1.m_modelMap "m.bin" = some i1 := hi
  rw [hrun]
  simp only [Option.map_some', htab, hq, hi1, hd, he]
  decide

/-! ## C12: flags follow the disk -/

theorem updateData_synced (st : State) (f : String) (role : Role) (value : QVariant)
    (info : ModelInfo) (h : st.m_modelMap f = some info) :
    ∃ info1, (updateData st f role value).m_modelMap f = some info1 ∧
      info1.filename = (info.setRole role value).filename ∧
      info1.dirpath = (info.setRole role value).dirpath ∧
      info1.installed = exists_ st.fs (info1.dirpath ++ info1.filename) ∧
      info1.isIncomplete = exists_ st.fs (incompleteDownloadPath st info1.filename) := by
  unfold updateData
  simp only [h, if_true]
  refine ⟨_, rfl, ?_, ?_, ?_, ?_⟩
  · split_ifs <;> rfl
  · split_ifs <;> rfl
  · split_ifs with h1 h2 h2
    · simp
    · simp
    · simpa using h1
    · simpa using h1
  · split_ifs with h1 h2 h2
    · simp
    · simpa using h2
    · simp
    · simpa using h2

/-- C12 (as the code behaves). After `updateData` on a registered file name,
whatever the role and the value, provided the record still carries that name
after the write (any role but a `FilenameRole` write of another name), the
record has `installed` equal to the existence on disk of the file at
`dirpath + filename` and `isIncomplete` equal to the existence of the temp
file at `incompleteDownloadPath(filename)`; the call changes no file. -/
theorem updateData_flags_follow_disk (st : State) (f : String) (role : Role) (value : QVariant)
    (info : ModelInfo) (h : st.m_modelMap f = some info)
    (hname : (info.setRole role value).filename = f) :
    ∃ info1, (updateData st f role value).m_modelMap f = some info1 ∧
      info1.dirpath = (info.setRole role value).dirpath ∧
      info1.installed = exists_ (updateData st f role value).fs (info1.dirpath ++ f) ∧
      info1.isIncomplete = exists_ (updateData st f role value).fs
        (incompleteDownloadPath (updateData st f role value) f) ∧
      (updateData st f role value).fs = st.fs := by
  obtain ⟨info1, h1, hn, hd, hi, hc⟩ := updateData_synced st f role value info h
  rw [hname] at hn
  rw [hn] at hi hc
  refine ⟨info1, h1, hd, ?_, ?_, updateData_fs _ _ _ _⟩
  · rw [updateData_fs]; exact hi
  · rw [updateData_fs]
    unfold incompleteDownloadPath localModelsPath
    rw [updateData_localModelsPath]
    exact hc

/-- Witness for C12 (amended): an explicit write of `installed = true` for
`m.bin`, which is not on disk, leaves the record with `installed = false`, and
`isIncomplete = true` since its temp file exists. -/
theorem updateData_flags_follow_disk_witness :
    resumeState.m_modelMap "m.bin" = some { filename := "m.bin", md5sum := "0a" } ∧
      ((updateData resumeState "m.bin" .InstalledRole (.bool true)).m_modelMap "m.bin").map
        (fun i => (i.installed, i.isIncomplete)) = some (false, true) := by
  refine ⟨by decide, ?_⟩
  obtain ⟨info1, h1, hd, hi, hc, -⟩ := updateData_flags_follow_disk resumeState "m.bin"
    .InstalledRole (.bool true) { filename := "m.bin", md5sum := "0a" } (by decide) (by decide)
  rw [h1, Option.map_some', hi, hc, hd]
  decide

/-- C12, counterexample. First, the installed file: from `catalogueState`,
`downloadModel` for `m.bin`, the completion of its stream, the worker (the
digest matches, the rename goes through) and `handleHashAndSaveFinished` leave
the file on disk at `localModelsPath + m.bin` while the record, whose
`dirpath` is empty, has `installed = false` after the last `updateData`.
Second, the temp file of `m.bin` is on disk; a `FilenameRole` write renames
the record kept under `m.bin`, the flags are derived from the new name, and
the record ends with `isIncomplete = false`. -/
theorem updateData_flags_counterexample :
    ((handleModelDownloadFinished (downloadModel catalogueState "m.bin" 3000 true) replyOfM
        none).map fun st => st.hashRequests) = some [matchRequest] ∧
      (serve sumDigest kindEnv partialDisk matchRequest).1.success = true ∧
      ((handleModelDownloadFinished (downloadModel catalogueState "m.bin" 3000 true) replyOfM
        none).map fun st =>
          exists_ (handleHashAndSaveFinished
            { st with fs := (serve sumDigest kindEnv st.fs matchRequest).2 }
            (serve sumDigest kindEnv st.fs matchRequest).1).fs
            (localModelsPath st ++ "m.bin")) = some true ∧
      ((handleModelDownloadFinished (downloadModel catalogueState "m.bin" 3000 true) replyOfM
        none).bind fun st =>
          ((handleHashAndSaveFinished
            { st with fs := (serve sumDigest kindEnv st.fs matchRequest).2 }
            (serve sumDigest kindEnv st.fs matchRequest).1).m_modelMap "m.bin").map
            fun i => (i.dirpath, i.installed)) = some ("", false) ∧
      exists_ (updateData resumeState "m.bin" .FilenameRole (.string "x.bin")).fs
        (incompleteDownloadPath (updateData resumeState "m.bin" .FilenameRole (.string "x.bin"))
          "m.bin") = true ∧
      ((updateData resumeState "m.bin" .FilenameRole (.string "x.bin")).m_modelMap "m.bin").map
        (fun i => i.isIncomplete) = some false := by
  decide

/-! ## C13: closed-handle protocol -/

theorem openReadOnly_none_or (fs : FileSystem) (ok : Bool) (f : QFile) :
    f.openReadOnly fs ok = none ∨ f.openReadOnly fs ok = some { f with isOpen := true, pos := 0 } := by
  unfold QFile.openReadOnly
  split_ifs
  · exact Or.inr rfl
  · exact Or.inl rfl

theorem installVerified_closed (env : HashEnv) (fs : FileSystem) (saveFilePath : String)
    (closed : QFile) (modelReply : QNetworkReply) (hc : closed.isOpen = false) :
    (installVerified env fs saveFilePath closed modelReply).1.tempFile.isOpen = false := by
  unfold installVerified
  by_cases hr : renameSucceeds env fs saveFilePath = true
  · simp only [hr, if_true]; exact hc
  · simp only [hr, Bool.false_eq_true, if_false]
    rcases openReadOnly_none_or fs env.reopenCopyOk closed with h | h
    · simp only [h]; exact hc
    · simp only [h]
      by_cases hd : env.destOpenOk = true
      · simp only [hd, if_true]; rfl
      · simp only [hd, Bool.false_eq_true, if_false]; rfl

theorem hashAndSave_closed (md5 : List Byte → List Byte) (env : HashEnv) (fs : FileSystem)
    (expectedHash saveFilePath : String) (tempFile : QFile) (modelReply : QNetworkReply)
    (hc : tempFile.isOpen = false) :
    (hashAndSave md5 env fs expectedHash saveFilePath tempFile modelReply).1.tempFile.isOpen
      = false := by
  unfold hashAndSave
  rcases openReadOnly_none_or fs env.reopenOk tempFile with h | h
  · simp only [h]; exact hc
  · simp only [h]
    split_ifs
    · rfl
    · rfl
    · exact installVerified_closed _ _ _ _ _ rfl

theorem handleModelDownloadFinished_requests (st st1 : State) (modelReply : QNetworkReply)
    (error : Option String) (h : handleModelDownloadFinished st modelReply error = some st1) :
    st1.hashRequests = st.hashRequests ∨
      ∃ r : HashRequest, st1.hashRequests = st.hashRequests ++ [r] ∧ r.tempFile.isOpen = false ∧
        r.modelReply = modelReply := by
  unfold handleModelDownloadFinished at h
  cases hv : QMap.value st.m_activeDownloads modelReply with
  | none => simp [hv] at h
  | some tf =>
    simp only [hv] at h
    cases error with
    | some e =>
      simp only [Option.some.injEq] at h
      subst h
      left
      simp only [updateData_hashRequests]
    | none =>
      simp only at h
      split_ifs at h with hk
      · simp only [Option.some.injEq] at h
        subst h
        left; rfl
      · simp only [Option.some.injEq] at h
        subst h
        right
        refine ⟨⟨?eh, ?sp, tf.close, modelReply⟩, ?h1, rfl, rfl⟩
        case h1 =>
          simp only [updateData_hashRequests]
          exact rfl

/-- C13. A run of `hashAndSave` entered with a closed temp file emits its
result with the temp file closed, on every path; every verification request
`handleModelDownloadFinished` emits carries a closed temp file; so the
assertion at the head of `hashAndSave` holds for each such request and the
one at the head of `handleHashAndSaveFinished` holds for the worker's answer
to it. -/
theorem closed_handle_protocol (md5 : List Byte → List Byte) (env : HashEnv) (fs : FileSystem) :
    (∀ (expectedHash saveFilePath : String) (tempFile : QFile) (modelReply : QNetworkReply),
      tempFile.isOpen = false →
      (hashAndSave md5 env fs expectedHash saveFilePath tempFile modelReply).1.tempFile.isOpen
        = false) ∧
    (∀ (st st1 : State) (modelReply : QNetworkReply) (error : Option String) (r : HashRequest),
      handleModelDownloadFinished st modelReply error = some st1 →
      r ∈ st1.hashRequests.drop st.hashRequests.length →
      hashAndSaveAssert r = true ∧ hashAndSaveFinishedAssert (serve md5 env fs r).1 = true) := by
  refine ⟨fun e s tf reply hc => hashAndSave_closed md5 env fs e s tf reply hc, ?_⟩
  intro st st1 modelReply error r hrun hr
  have hclosed : r.tempFile.isOpen = false := by
    rcases handleModelDownloadFinished_requests st st1 modelReply error hrun with h | ⟨r1, h, hc, -⟩
    · rw [h] at hr
      simp at hr
    · rw [h] at hr
      simp at hr
      rw [hr]; exact hc
  refine ⟨by simp [hashAndSaveAssert, hclosed], ?_⟩
  simp only [hashAndSaveFinishedAssert, serve,
    hashAndSave_closed md5 env fs r.expectedHash r.saveFilePath r.tempFile r.modelReply hclosed,
    Bool.not_false]

/-- Witness for C13: the worker entered with the closed temp file of `m.bin`
answers with the temp file closed. -/
theorem closed_handle_protocol_witness :
    tempOfM.isOpen = false ∧
      (hashAndSave sumDigest kindEnv partialDisk "06" "/models/m.bin" tempOfM
        replyOfM).1.tempFile.isOpen = false :=
  ⟨rfl, (closed_handle_protocol sumDigest kindEnv partialDisk).1 "06" "/models/m.bin" tempOfM
    replyOfM rfl⟩

/-! ## C15: true total size -/

theorem updateData_record (st : State) (f : String) (r : Role) (v : QVariant) (info : ModelInfo)
    (h : st.m_modelMap f = some info) :
    ∃ info1, (updateData st f r v).m_modelMap f = some info1 ∧
      { info1 with installed := false, isIncomplete := false } =
        { info.setRole r v with installed := false, isIncomplete := false } := by
  unfold updateData
  simp only [h, if_true]
  refine ⟨_, rfl, ?_⟩
  split_ifs <;> rfl

theorem splitLast_no_sep (sep : Char) (l acc : List Char) (h : sep ∉ l) :
    splitLast sep l acc = acc.reverse ++ l := by
  induction l generalizing acc with
  | nil => simp [splitLast]
  | cons c cs ih =>
    have hc : ¬ c = sep := fun e => h (e ▸ List.mem_cons_self _ _)
    have hcs : sep ∉ cs := fun m => h (List.mem_cons_of_mem _ m)
    simp only [splitLast, hc, if_false]
    rw [ih _ hcs]
    simp

theorem splitLast_after (sep : Char) (pre suf acc : List Char) (h : sep ∉ suf) :
    splitLast sep (pre ++ sep :: suf) acc = suf := by
  induction pre generalizing acc with
  | nil =>
    simp only [List.nil_append, splitLast, if_true]
    rw [splitLast_no_sep sep suf [] h]
    rfl
  | cons c cs ih =>
    simp only [List.cons_append, splitLast]
    split_ifs
    · exact ih _
    · exact ih _

/-- C15. A progress notification for an active session of a registered file
that is not throttled writes `bytesTotal`: when the `Content-Range` header
holds a slash, the value is `toLongLong` of the text after its last slash;
when the header is empty or holds no slash, the value is the total the
transport advertised. -/
theorem handleDownloadProgress_bytesTotal (number : Int → Nat → String) (st : State)
    (modelReply : QNetworkReply) (contentRange : String) (bytesReceived bytesTotal : Int)
    (currentUpdate : Int) (tempFile : QFile) (info : ModelInfo)
    (hactive : QMap.value st.m_activeDownloads modelReply = some tempFile)
    (hknown : st.m_modelMap modelReply.request.user = some info)
    (hnot : ¬ currentUpdate - info.timestamp < 1000) :
    ∃ st1 info1,
      handleDownloadProgress number st modelReply contentRange bytesReceived bytesTotal
        currentUpdate = some st1 ∧
      st1.m_modelMap modelReply.request.user = some info1 ∧
      (containsChar contentRange (Char.ofNat 47) = false → info1.bytesTotal = bytesTotal) ∧
      (∀ pre suf : List Char, contentRange.data = pre ++ Char.ofNat 47 :: suf →
        Char.ofNat 47 ∉ suf → info1.bytesTotal = toLongLong (String.mk suf)) := by
  obtain ⟨i1, h1, e1⟩ := updateData_record st modelReply.request.user .BytesReceivedRole
    (.longlong (tempFile.pos : Int)) info hknown
  obtain ⟨i2, h2, e2⟩ := updateData_record _ modelReply.request.user .BytesTotalRole
    (.longlong (if containsChar contentRange (Char.ofNat 47) then
        toLongLong (String.mk (splitLast (Char.ofNat 47) contentRange.data []))
      else bytesTotal)) i1 h1
  obtain ⟨i3, h3, e3⟩ := updateData_record _ modelReply.request.user .SpeedRole
    (.string (speedText number (speedOf ((tempFile.pos : Int) - info.bytesReceived)
      (currentUpdate - info.timestamp)))) i2 h2
  obtain ⟨i4, h4, e4⟩ := updateData_record _ modelReply.request.user .TimestampRole
    (.longlong currentUpdate) i3 h3
  have hb2 : i2.bytesTotal = (if containsChar contentRange (Char.ofNat 47) then
        toLongLong (String.mk (splitLast (Char.ofNat 47) contentRange.data []))
      else bytesTotal) := congrArg ModelInfo.bytesTotal e2
  have hb3 : i3.bytesTotal = i2.bytesTotal := by
    have h := congrArg ModelInfo.bytesTotal e3
    exact h
  have hb4 : i4.bytesTotal = i3.bytesTotal := by
    have h := congrArg ModelInfo.bytesTotal e4
    exact h
  have key : ∃ st1, st1.m_modelMap modelReply.request.user = some i4 ∧
      handleDownloadProgress number st modelReply contentRange bytesReceived bytesTotal
        currentUpdate = some st1 :=
    ⟨_, h4, by
      unfold handleDownloadProgress
      simp only [hactive, data, hknown, dataInternal, QVariant.toLongLong, hnot, if_false]⟩
  obtain ⟨st1, hm, hs⟩ := key
  refine ⟨st1, i4, hs, hm, ?_, ?_⟩
  · intro hno
    rw [hb4, hb3, hb2, hno]
    rfl
  · intro pre suf hsplit hsuf
    have hyes : containsChar contentRange (Char.ofNat 47) = true := by
      simp [containsChar, hsplit]
    rw [hb4, hb3, hb2, hyes, if_pos rfl, hsplit, splitLast_after _ _ _ _ hsuf]

/-- Witness for C15: the header `bytes 100-999/1000` makes the recorded total
1000, whatever the transport advertised (here 900). -/
theorem handleDownloadProgress_bytesTotal_witness :
    QMap.value speedState.m_activeDownloads replyOfM =
        some { fileName := "/models/incomplete-m.bin", isOpen := true, pos := 1500 } ∧
      ((handleDownloadProgress wholeNumber speedState replyOfM "bytes 100-999/1000" 900 900
        11000).bind fun s => (s.m_modelMap "m.bin").map fun i => i.bytesTotal) = some 1000 := by
  refine ⟨by decide, ?_⟩
  obtain ⟨st1, i1, hs, hm, -, hsl⟩ := handleDownloadProgress_bytesTotal wholeNumber speedState
    replyOfM "bytes 100-999/1000" 900 900 11000
    { fileName := "/models/incomplete-m.bin", isOpen := true, pos := 1500 }
    { filename := "m.bin", isDownloading := true, isIncomplete := true, timestamp := 10000 }
    (by decide) (by decide) (by decide)
  have hm1 : st1.m_modelMap "m.bin" = some i1 := hm
  rw [hs, Option.some_bind, hm1, Option.map_some',
    hsl "bytes 100-999".data "1000".data (by decide) (by decide)]
  decide

/-! ## C16: unknown target -/

/-- C16, on a concrete run. The registry does not hold `ghost.bin`; the call
registers no session, issues no request and leaves the registry as it was, but
it has already opened the temp file: the file now exists on disk, empty, and
its `QFile` is left open, held by nobody. -/
theorem downloadModel_unknown_creates_temp :
    contains resumeState "ghost.bin" = false ∧
      resumeState.fs (incompleteDownloadPath resumeState "ghost.bin") = none ∧
      (downloadModel resumeState "ghost.bin" 3000 true).m_activeDownloads = [] ∧
      (downloadModel resumeState "ghost.bin" 3000 true).sent = [] ∧
      (downloadModel resumeState "ghost.bin" 3000 true).fs
        (incompleteDownloadPath resumeState "ghost.bin") = some { content := [], mtime := 3000 } ∧
      (downloadModel resumeState "ghost.bin" 3000 true).orphans =
        [{ fileName := "/models/incomplete-ghost.bin", isOpen := true, pos := 0 }] := by
  decide

/-! ## C19: registry lookup -/

/-- C19, on a concrete run. For `ghost.bin`, which the registry does not hold,
`data` with a listed role reads a field through the null record (the fault
`none`), and so does `handleDownloadProgress` for a session of that file
name; only a role outside the `switch` gives the invalid value. -/
theorem data_unknown_faults :
    contains resumeState "ghost.bin" = false ∧
      data resumeState "ghost.bin" .TimestampRole = none ∧
      data resumeState "ghost.bin" .BytesReceivedRole = none ∧
      data resumeState "ghost.bin" .other = some .invalid ∧
      (handleDownloadProgress wholeNumber ghostState replyOfGhost "" 10 100 5000).isNone
        = true := by
  decide

/-! ## C18: `compareVersions` is a strict weak ordering -/

theorem compareParts_nil_left (bs : List String) : compareParts [] bs = false := by
  simp [compareParts, compareLoop]

theorem compareParts_nil_right (a : String) (as : List String) :
    compareParts (a :: as) [] = true := by
  simp [compareParts, compareLoop]

theorem compareParts_cons (a b : String) (as bs : List String) :
    compareParts (a :: as) (b :: bs) =
      if toInt a > toInt b then true else if toInt a < toInt b then false
      else compareParts as bs := by
  unfold compareParts
  simp only [compareLoop]
  split_ifs
  · rfl
  · rfl
  · simp only [List.length_cons, gt_iff_lt, Nat.add_lt_add_iff_right]

theorem compareParts_irrefl (as : List String) : compareParts as as = false := by
  induction as with
  | nil => exact compareParts_nil_left _
  | cons a as ih =>
    rw [compareParts_cons]
    simp [ih]

theorem compareParts_trans (as : List String) :
    ∀ bs cs : List String, compareParts as bs = true → compareParts bs cs = true →
      compareParts as cs = true := by
  induction as with
  | nil =>
    intro bs cs h
    rw [compareParts_nil_left] at h
    exact absurd h (by simp)
  | cons a as ih =>
    intro bs cs h1 h2
    cases bs with
    | nil =>
      rw [compareParts_nil_left] at h2
      exact absurd h2 (by simp)
    | cons b bs =>
      cases cs with
      | nil => exact compareParts_nil_right _ _
      | cons c cs =>
        rw [compareParts_cons] at h1 h2 ⊢
        split_ifs at h1 h2 ⊢ <;>
          (first
            | rfl
            | omega
            | exact ih _ _ h1 h2)

theorem compareParts_negtrans (as : List String) :
    ∀ bs cs : List String, compareParts as cs = true →
      compareParts as bs = true ∨ compareParts bs cs = true := by
  induction as with
  | nil =>
    intro bs cs h
    rw [compareParts_nil_left] at h
    exact absurd h (by simp)
  | cons a as ih =>
    intro bs cs h
    cases bs with
    | nil => exact Or.inl (compareParts_nil_right _ _)
    | cons b bs =>
      cases cs with
      | nil => exact Or.inr (compareParts_nil_right _ _)
      | cons c cs =>
        rw [compareParts_cons] at h
        rw [compareParts_cons, compareParts_cons]
        split_ifs at h ⊢ <;>
          (first
            | exact Or.inl rfl
            | exact Or.inr rfl
            | omega
            | exact ih _ _ h)

/-- C18. The comparator `compareVersions` is a strict weak ordering: no version
precedes itself; precedence is transitive; and being unordered either way is
transitive. -/
theorem compareVersions_strict_weak_order :
    (∀ a : String, compareVersions a a = false) ∧
    (∀ a b c : String, compareVersions a b = true → compareVersions b c = true →
      compareVersions a c = true) ∧
    (∀ a b c : String, compareVersions a b = false → compareVersions b a = false →
      compareVersions b c = false → compareVersions c b = false →
      compareVersions a c = false ∧ compareVersions c a = false) := by
  refine ⟨fun a => compareParts_irrefl _, fun a b c => compareParts_trans _ _ _, ?_⟩
  intro a b c hab hba hbc hcb
  unfold compareVersions at *
  constructor
  · by_contra h
    rcases compareParts_negtrans _ (versionParts b) _ (by simpa using h) with h1 | h1
    · rw [hab] at h1; exact absurd h1 (by simp)
    · rw [hbc] at h1; exact absurd h1 (by simp)
  · by_contra h
    rcases compareParts_negtrans _ (versionParts b) _ (by simpa using h) with h1 | h1
    · rw [hcb] at h1; exact absurd h1 (by simp)
    · rw [hba] at h1; exact absurd h1 (by simp)

/-! ## C17: `hasNewerRelease` -/

theorem stdSort_head_greatest (keys : List String) (first : String) (rest : List String)
    (h : stdSort compareVersions keys = first :: rest) :
    first ∈ keys ∧ ∀ v ∈ keys, compareVersions v first = false := by
  haveI : IsTotal String (fun a b => compareVersions b a = false) := ⟨by
    intro a b
    by_cases hba : compareVersions b a = true
    · right
      by_contra hab
      have hab1 : compareVersions a b = true := by simpa using hab
      have := compareParts_trans _ _ _ hba hab1
      rw [compareParts_irrefl] at this
      exact absurd this (by simp)
    · left
      simpa using hba⟩
  haveI : IsTrans String (fun a b => compareVersions b a = false) := ⟨by
    intro a b c hab hbc
    by_contra hca
    have hca1 : compareVersions c a = true := by simpa using hca
    rcases compareParts_negtrans _ (versionParts b) _ hca1 with h1 | h1
    · have h2 : compareVersions c b = true := h1
      rw [hbc] at h2
      exact absurd h2 (by simp)
    · have h2 : compareVersions b a = true := h1
      rw [hab] at h2
      exact absurd h2 (by simp)⟩
  have hsorted : (stdSort compareVersions keys).Sorted (fun a b => compareVersions b a = false) :=
    List.sorted_insertionSort _ keys
  have hmem : ∀ v, v ∈ stdSort compareVersions keys ↔ v ∈ keys := fun v =>
    List.mem_insertionSort _
  rw [h] at hsorted
  refine ⟨(hmem first).mp (by rw [h]; exact List.mem_cons_self _ _), ?_⟩
  intro v hv
  have hv1 := (hmem v).mpr hv
  rw [h] at hv1
  rcases List.mem_cons.mp hv1 with e | hin
  · rw [e]
    exact compareParts_irrefl _
  · exact List.rel_of_sorted_cons hsorted v hin

/-- C17. The function `hasNewerRelease` gives `true` exactly when some key of the
release map is newer than the running version (`compareVersions v
currentVersion`); it gives `false` for an empty map; and the first element
after the sort is a greatest key: no key precedes it. -/
theorem hasNewerRelease_iff (keys : List String) (currentVersion : String) :
    (hasNewerRelease keys currentVersion = true ↔
      ∃ v ∈ keys, compareVersions v currentVersion = true) ∧
    hasNewerRelease [] currentVersion = false ∧
    (∀ first rest, stdSort compareVersions keys = first :: rest →
      first ∈ keys ∧ ∀ v ∈ keys, compareVersions v first = false) := by
  refine ⟨?_, rfl, fun first rest h => stdSort_head_greatest keys first rest h⟩
  unfold hasNewerRelease
  cases hs : stdSort compareVersions keys with
  | nil =>
    have hlen : (stdSort compareVersions keys).length = keys.length :=
      List.length_insertionSort _ keys
    rw [hs] at hlen
    have hk : keys = [] := List.length_eq_zero.mp hlen.symm
    simp [hk]
  | cons first rest =>
    obtain ⟨hin, hmax⟩ := stdSort_head_greatest keys first rest hs
    simp only
    constructor
    · intro h
      exact ⟨first, hin, h⟩
    · rintro ⟨v, hv, hgt⟩
      rcases compareParts_negtrans _ (versionParts first) _ hgt with h1 | h1
      · have h2 : compareVersions v first = true := h1
        rw [hmax v hv] at h2
        exact absurd h2 (by simp)
      · exact h1

/-- Witness for C17: among the releases 2.4.1, 2.4.10 and 2.4.9 the key 2.4.10
is newer than the running 2.4.9, so `hasNewerRelease` gives `true`. -/
theorem hasNewerRelease_iff_witness :
    compareVersions "2.4.10" "2.4.9" = true ∧
      hasNewerRelease ["2.4.1", "2.4.10", "2.4.9"] "2.4.9" = true :=
  ⟨by decide, (hasNewerRelease_iff ["2.4.1", "2.4.10", "2.4.9"] "2.4.9").1.mpr
    ⟨"2.4.10", by decide, by decide⟩⟩

/-- Witness for C18: 2.10 precedes 2.9.0, which precedes 2.9, hence 2.10 precedes 2.9. -/
theorem compareVersions_strict_weak_order_witness :
    compareVersions "2.10" "2.9.0" = true ∧ compareVersions "2.9.0" "2.9" = true ∧
      compareVersions "2.10" "2.9" = true :=
  ⟨by decide, by decide,
    compareVersions_strict_weak_order.2.1 "2.10" "2.9.0" "2.9" (by decide) (by decide)⟩

/-! ## C20: temp files and the catalogue -/

/-- C20, on a concrete run. The local models path lists the temp file
`incomplete-ggml-model.bin` of the model `ggml-model.bin`; its name ends with
`.bin` and holds `ggml`, so `updateModelsFromDirectory` adds it to the
registry as a model, marked installed. -/
theorem updateModelsFromDirectory_adds_temp :
    incompleteDownloadPath scanState "ggml-model.bin" = "/models/incomplete-ggml-model.bin" ∧
      contains scanState "incomplete-ggml-model.bin" = false ∧
      contains (updateModelsFromDirectory plainSize scanState "/app/" []
        ["incomplete-ggml-model.bin"]) "incomplete-ggml-model.bin" = true ∧
      ((updateModelsFromDirectory plainSize scanState "/app/" []
        ["incomplete-ggml-model.bin"]).m_modelMap "incomplete-ggml-model.bin").map
          (fun i => (i.filename, i.dirpath, i.installed)) =
        some ("incomplete-ggml-model.bin", "/models/", true) := by
  decide

/-! ## C14: when a temp file goes away -/

theorem cancelDownload_fs (st : State) (f : String) : (cancelDownload st f).fs = st.fs := by
  unfold cancelDownload
  split
  · rfl
  · simp only [updateData_fs]

theorem cancelDownload_hashRequests (st : State) (f : String) :
    (cancelDownload st f).hashRequests = st.hashRequests := by
  unfold cancelDownload
  split
  · rfl
  · simp only [updateData_hashRequests]

theorem handleErrorOccurred_fs (st : State) (reply : QNetworkReply) (code : Int) (e : String)
    (locale : Int → String) : (handleErrorOccurred st reply code e locale).fs = st.fs := by
  unfold handleErrorOccurred
  simp only [cancelDownload_fs, updateData_fs]

theorem addModel_fs (st : State) (f : String) : (addModel st f).fs = st.fs := by
  unfold addModel
  split_ifs <;> rfl

theorem handleHashAndSaveFinished_fs (st : State) (r : HashResult) :
    (handleHashAndSaveFinished st r).fs = st.fs := by
  unfold handleHashAndSaveFinished
  split_ifs <;> simp only [updateData_fs]

theorem handleModelDownloadFinished_fs (st st1 : State) (reply : QNetworkReply)
    (error : Option String) (h : handleModelDownloadFinished st reply error = some st1) :
    st1.fs = st.fs := by
  unfold handleModelDownloadFinished at h
  cases hv : QMap.value st.m_activeDownloads reply with
  | none => simp [hv] at h
  | some tf =>
    simp only [hv] at h
    cases error with
    | some e =>
      simp only [Option.some.injEq] at h
      subst h
      simp only [updateData_fs]
    | none =>
      simp only at h
      split_ifs at h with hk
      · simp only [Option.some.injEq] at h
        subst h
        rfl
      · simp only [Option.some.injEq] at h
        subst h
        simp only [updateData_fs]

theorem handleDownloadProgress_fs (number : Int → Nat → String) (st st1 : State)
    (reply : QNetworkReply) (cr : String) (br bt now : Int)
    (h : handleDownloadProgress number st reply cr br bt now = some st1) : st1.fs = st.fs := by
  unfold handleDownloadProgress at h
  cases hv : QMap.value st.m_activeDownloads reply with
  | none =>
    simp only [hv, Option.some.injEq] at h
    subst h; rfl
  | some tf =>
    simp only [hv] at h
    cases ht : data st reply.request.user .TimestampRole with
    | none => simp [ht] at h
    | some v =>
      simp only [ht] at h
      by_cases hthr : now - v.toLongLong < 1000
      · simp only [hthr, if_true, Option.some.injEq] at h
        subst h; rfl
      · simp only [hthr, if_false] at h
        cases hb : data st reply.request.user .BytesReceivedRole with
        | none => simp [hb] at h
        | some w =>
          simp only [hb, Option.some.injEq] at h
          subst h
          simp only [updateData_fs]

theorem downloadModel_keeps (st : State) (f : String) (now : Int) (openOk : Bool) (p : String)
    (h : exists_ st.fs p = true) : exists_ (downloadModel st f now openOk).fs p = true := by
  unfold downloadModel
  by_cases ho : openOk = true
  · simp only [ho, Bool.not_true, Bool.false_eq_true, if_false]
    have key : exists_ (match st.fs (incompleteDownloadPath st f) with
        | some _ => st.fs
        | none => st.fs.set (incompleteDownloadPath st f) (some { content := [], mtime := now })) p
          = true := by
      cases hq : st.fs (incompleteDownloadPath st f) with
      | some d => exact h
      | none =>
        simp only [exists_, FileSystem.set]
        split_ifs
        · rfl
        · exact h
    simp only [contains]
    by_cases hk : (st.m_modelMap f).isSome = true
    · simp only [hk, Bool.not_true, Bool.false_eq_true, if_false, updateData_fs]
      exact key
    · simp only [hk, Bool.not_false, Bool.not_eq_true, if_true]
      exact key
  · simp only [ho, Bool.not_false, if_true, updateData_fs]
    exact h

theorem installModel_keeps (st : State) (f key : String) (now : Int) (openOk : Bool) (p : String)
    (h : exists_ st.fs p = true) : exists_ (installModel st f key now openOk).fs p = true := by
  unfold installModel
  split_ifs
  · exact h
  · simp only [exists_, FileSystem.set]
    split_ifs
    · rfl
    · exact h
  · exact h

theorem handleReadyRead_keeps (st st1 : State) (reply : QNetworkReply) (incoming : List Byte)
    (room : Nat) (now : Int) (p : String) (hrun : handleReadyRead st reply incoming room now = some st1)
    (h : exists_ st.fs p = true) : exists_ st1.fs p = true := by
  unfold handleReadyRead at hrun
  cases hv : QMap.value st.m_activeDownloads reply with
  | none => simp [hv] at hrun
  | some tf =>
    simp only [hv, Option.some.injEq] at hrun
    subst hrun
    simp only
    cases hq : st.fs tf.fileName with
    | none => exact h
    | some d =>
      simp only
      split_ifs
      · exact h
      · simp only [exists_, FileSystem.set]
        split_ifs
        · rfl
        · exact h

/-- The three ways a run of `hashAndSave` can go: the temp file does not
open; it opens and the digest differs; it opens and the digest matches. -/
theorem hashAndSave_cases (md5 : List Byte → List Byte) (env : HashEnv) (fs : FileSystem)
    (expectedHash saveFilePath : String) (tempFile : QFile) (modelReply : QNetworkReply) :
    (tempFile.openReadOnly fs env.reopenOk = none ∧
      (hashAndSave md5 env fs expectedHash saveFilePath tempFile modelReply).1.success = false ∧
      (hashAndSave md5 env fs expectedHash saveFilePath tempFile modelReply).2 = fs) ∨
    (exists_ fs tempFile.fileName = true ∧
      toHex (md5 (fileContent fs tempFile.fileName)) ≠ expectedHash ∧
      (hashAndSave md5 env fs expectedHash saveFilePath tempFile modelReply).1.success = false ∧
      (hashAndSave md5 env fs expectedHash saveFilePath tempFile modelReply).2 =
        if env.removeOk = true then fs.set tempFile.fileName none else fs) ∨
    (exists_ fs tempFile.fileName = true ∧
      toHex (md5 (fileContent fs tempFile.fileName)) = expectedHash ∧
      hashAndSave md5 env fs expectedHash saveFilePath tempFile modelReply =
        installVerified env fs saveFilePath { tempFile with isOpen := false, pos := 0 }
          modelReply) := by
  have hloop := hashLoop_spec (fileContent fs tempFile.fileName)
    (fileContent fs tempFile.fileName).length 0 {} (Nat.zero_le _) (by omega)
  rcases openReadOnly_none_or fs env.reopenOk tempFile with h | h
  · left
    unfold hashAndSave
    simp only [h, and_self]
  · right
    obtain ⟨-, -, hex⟩ := openReadOnly_some fs env.reopenOk tempFile _ h
    by_cases heq : toHex (md5 (fileContent fs tempFile.fileName)) = expectedHash
    · right
      refine ⟨hex, heq, ?_⟩
      unfold hashAndSave
      simp only [h, hloop, QCryptographicHash.result, List.nil_append,
        List.drop_zero, heq, bne_self_eq_false, Bool.false_eq_true, if_false, QFile.close]
    · left
      have hb : (toHex (md5 (fileContent fs tempFile.fileName)) != expectedHash) = true := by
        simpa [bne_iff_ne] using heq
      refine ⟨hex, heq, ?_, ?_⟩
      · unfold hashAndSave
        simp only [h, hloop, QCryptographicHash.result, List.nil_append,
          List.drop_zero, hb, if_true, QFile.close]
      · unfold hashAndSave
        simp only [h, hloop, QCryptographicHash.result, List.nil_append,
          List.drop_zero, hb, if_true, QFile.close]

/-- The install step on a closed temp file that exists: either the rename
goes through, or nothing that was on disk goes away. -/
theorem installVerified_cases (env : HashEnv) (fs : FileSystem) (saveFilePath : String)
    (closed : QFile) (modelReply : QNetworkReply) :
    (renameSucceeds env fs saveFilePath = true ∧
      (installVerified env fs saveFilePath closed modelReply).1.success = true ∧
      (installVerified env fs saveFilePath closed modelReply).2 =
        (fs.set closed.fileName none).set saveFilePath (fs closed.fileName)) ∨
    (renameSucceeds env fs saveFilePath = false ∧
      (closed.openReadOnly fs env.reopenCopyOk = none ∨ env.destOpenOk = false) ∧
      (installVerified env fs saveFilePath closed modelReply).1.success = false ∧
      (installVerified env fs saveFilePath closed modelReply).2 = fs) ∨
    (renameSucceeds env fs saveFilePath = false ∧
      closed.openReadOnly fs env.reopenCopyOk ≠ none ∧ env.destOpenOk = true ∧
      (installVerified env fs saveFilePath closed modelReply).1.success = true ∧
      ∀ p, exists_ fs p = true →
        exists_ (installVerified env fs saveFilePath closed modelReply).2 p = true) := by
  unfold installVerified
  by_cases hr : renameSucceeds env fs saveFilePath = true
  · left
    simp only [hr, if_true, and_self]
  · right
    have hr1 : renameSucceeds env fs saveFilePath = false := by simpa using hr
    simp only [hr1, Bool.false_eq_true, if_false, true_and]
    rcases openReadOnly_none_or fs env.reopenCopyOk closed with h | h
    · left
      simp only [h, true_or, and_self]
    · simp only [h]
      by_cases hd : env.destOpenOk = true
      · right
        simp only [hd, if_true, ne_eq, not_false_eq_true, true_and, reduceCtorEq]
        intro p hp
        simp only [exists_, FileSystem.set]
        split_ifs
        · rfl
        · exact hp
      · left
        have hd1 : env.destOpenOk = false := by simpa using hd
        simp only [hd1, or_true, Bool.false_eq_true, if_false, and_self]

/-- What a run of `hashAndSave` takes off the disk is its own temp file, and
only on a digest mismatch or in a run that reports success. -/
theorem hashAndSave_lost (md5 : List Byte → List Byte) (env : HashEnv) (fs : FileSystem)
    (expectedHash saveFilePath : String) (tempFile : QFile) (modelReply : QNetworkReply)
    (p : String) (h : exists_ fs p = true)
    (hgone : exists_ (hashAndSave md5 env fs expectedHash saveFilePath tempFile modelReply).2 p
      = false) :
    p = tempFile.fileName ∧
      (toHex (md5 (fileContent fs tempFile.fileName)) ≠ expectedHash ∨
        (hashAndSave md5 env fs expectedHash saveFilePath tempFile modelReply).1.success = true) := by
  rcases hashAndSave_cases md5 env fs expectedHash saveFilePath tempFile modelReply with
    ⟨-, -, hfs⟩ | ⟨-, hne, -, hfs⟩ | ⟨hex, -, hrun⟩
  · rw [hfs, h] at hgone
    exact absurd hgone (by simp)
  · rw [hfs] at hgone
    by_cases hrm : env.removeOk = true
    · simp only [hrm, if_true, exists_, FileSystem.set] at hgone
      split_ifs at hgone with hp
      · exact ⟨hp, Or.inl hne⟩
      · simp only [exists_] at h
        rw [h] at hgone
        exact absurd hgone (by simp)
    · have hrm1 : env.removeOk = false := by simpa using hrm
      simp only [hrm1, Bool.false_eq_true, if_false] at hgone
      rw [h] at hgone
      exact absurd hgone (by simp)
  · rw [hrun] at hgone ⊢
    rcases installVerified_cases env fs saveFilePath { tempFile with isOpen := false, pos := 0 }
      modelReply with ⟨-, hs, hfs⟩ | ⟨-, -, -, hfs⟩ | ⟨-, -, -, -, hkeep⟩
    · rw [hfs] at hgone
      simp only [exists_, FileSystem.set] at hgone
      split_ifs at hgone with hp1 hp2
      · simp only [exists_] at hex
        rw [hex] at hgone
        exact absurd hgone (by simp)
      · exact ⟨hp2, Or.inr hs⟩
      · simp only [exists_] at h
        rw [h] at hgone
        exact absurd hgone (by simp)
    · rw [hfs, h] at hgone
      exact absurd hgone (by simp)
    · rw [hkeep p h] at hgone
      exact absurd hgone (by simp)

theorem remove_if_exists_keeps (fs : FileSystem) (q p : String) (hp : p ≠ q)
    (h : exists_ fs p = true) :
    exists_ (if exists_ fs q = true then fs.set q none else fs) p = true := by
  split_ifs
  · simp only [exists_, FileSystem.set, hp, if_false]
    exact h
  · exact h

theorem removeModel_fs (st : State) (f : String) :
    (removeModel st f).fs =
      (fun fs1 : FileSystem =>
        if exists_ fs1 (localModelsPath st ++ f ++
            (if "chatgpt-".data.isPrefixOf f.data then ".txt" else "")) = true then
          fs1.set (localModelsPath st ++ f ++
            (if "chatgpt-".data.isPrefixOf f.data then ".txt" else "")) none
        else fs1)
        (if exists_ st.fs (incompleteDownloadPath st f) = true then
          st.fs.set (incompleteDownloadPath st f) none
        else st.fs) := by
  unfold removeModel
  simp only [updateData_fs]
  split_ifs <;> rfl

/-- What `removeModel` takes off the disk is the temp file or the installed
file (the key file, for a `chatgpt-` name) of the model it is called for. -/
theorem removeModel_lost (st : State) (f p : String) (h : exists_ st.fs p = true)
    (hgone : exists_ (removeModel st f).fs p = false) :
    p = incompleteDownloadPath st f ∨
      p = localModelsPath st ++ f ++ (if "chatgpt-".data.isPrefixOf f.data then ".txt" else "") := by
  by_contra hcon
  simp only [not_or] at hcon
  obtain ⟨h1, h2⟩ := hcon
  have key : exists_ (removeModel st f).fs p = true := by
    rw [removeModel_fs]
    exact remove_if_exists_keeps _ _ p h2 (remove_if_exists_keeps _ _ p h1 h)
  rw [key] at hgone
  exact absurd hgone (by simp)

/-- C14. A file that exists before an operation of the coordinator or of
the worker and not after it was taken away by `removeModel` (and is the temp
file or the installed file of the model named), or by a run of `hashAndSave`,
and then it is the temp file of that run and the run met a digest mismatch or
reported success.  A cancel changes no file; a transport failure changes no
file and asks for no verification; a run in which the temp file cannot be
opened for hashing, and a run with a matching digest in which the rename
fails and the temp file cannot be reopened or the destination cannot be
opened, reports failure and changes no file; and `handleHashAndSaveFinished`
given a failure changes no file and records the failure in the telemetry. -/
theorem temp_file_deletion_policy (md5 : List Byte → List Byte) (number : Int → Nat → String) :
    (∀ (op : Op) (st st1 : State) (p : String),
      run md5 number op st = some st1 → exists_ st.fs p = true → exists_ st1.fs p = false →
        (∃ f, op = .removeModel f ∧
          (p = incompleteDownloadPath st f ∨
            p = localModelsPath st ++ f ++
              (if "chatgpt-".data.isPrefixOf f.data then ".txt" else ""))) ∨
        (∃ env r, op = .hashAndSave env r ∧ p = r.tempFile.fileName ∧
          (toHex (md5 (fileContent st.fs r.tempFile.fileName)) ≠ r.expectedHash ∨
            (serve md5 env st.fs r).1.success = true))) ∧
    (∀ (st : State) (f : String),
      (cancelDownload st f).fs = st.fs ∧ (cancelDownload st f).hashRequests = st.hashRequests) ∧
    (∀ (st st1 : State) (modelReply : QNetworkReply) (e : String),
      handleModelDownloadFinished st modelReply (some e) = some st1 →
        st1.fs = st.fs ∧ st1.hashRequests = st.hashRequests) ∧
    (∀ (env : HashEnv) (fs : FileSystem) (r : HashRequest),
      r.tempFile.openReadOnly fs env.reopenOk = none →
        (serve md5 env fs r).1.success = false ∧ (serve md5 env fs r).2 = fs) ∧
    (∀ (env : HashEnv) (fs : FileSystem) (r : HashRequest),
      toHex (md5 (fileContent fs r.tempFile.fileName)) = r.expectedHash →
      renameSucceeds env fs r.saveFilePath = false →
      env.reopenCopyOk = false ∨ env.destOpenOk = false →
        (serve md5 env fs r).1.success = false ∧ (serve md5 env fs r).2 = fs) ∧
    (∀ (st : State) (r : HashResult), r.success = false →
      (handleHashAndSaveFinished st r).fs = st.fs ∧
      (handleHashAndSaveFinished st r).telemetry =
        st.telemetry ++ [.downloadFinished r.modelReply.request.user false]) := by
  refine ⟨?_, fun st f => ⟨cancelDownload_fs st f, cancelDownload_hashRequests st f⟩, ?_, ?_, ?_, ?_⟩
  · intro op st st1 p hrun h hgone
    have keep : ∀ st2 : State, st2.fs = st.fs → some st2 = some st1 → False := by
      intro st2 hfs he
      have e := Option.some.inj he
      rw [← e, hfs, h] at hgone
      exact absurd hgone (by simp)
    cases op with
    | downloadModel f now openOk =>
      simp only [run, Option.some.injEq] at hrun
      rw [← hrun, downloadModel_keeps st f now openOk p h] at hgone
      exact absurd hgone (by simp)
    | cancelDownload f => exact (keep _ (cancelDownload_fs st f) hrun).elim
    | installModel f key now openOk =>
      simp only [run, Option.some.injEq] at hrun
      rw [← hrun, installModel_keeps st f key now openOk p h] at hgone
      exact absurd hgone (by simp)
    | removeModel f =>
      simp only [run, Option.some.injEq] at hrun
      rw [← hrun] at hgone
      exact Or.inl ⟨f, rfl, removeModel_lost st f p h hgone⟩
    | handleErrorOccurred reply code e locale =>
      exact (keep _ (handleErrorOccurred_fs st reply code e locale) hrun).elim
    | handleDownloadProgress reply cr br bt now =>
      have hfs := handleDownloadProgress_fs number st st1 reply cr br bt now hrun
      rw [hfs, h] at hgone
      exact absurd hgone (by simp)
    | handleReadyRead reply incoming room now =>
      rw [handleReadyRead_keeps st st1 reply incoming room now p hrun h] at hgone
      exact absurd hgone (by simp)
    | handleModelDownloadFinished reply e =>
      have hfs := handleModelDownloadFinished_fs st st1 reply e hrun
      rw [hfs, h] at hgone
      exact absurd hgone (by simp)
    | hashAndSave env r =>
      simp only [run, Option.some.injEq] at hrun
      rw [← hrun] at hgone
      obtain ⟨hp, hwhy⟩ := hashAndSave_lost md5 env st.fs r.expectedHash r.saveFilePath r.tempFile
        r.modelReply p h hgone
      exact Or.inr ⟨env, r, rfl, hp, hwhy⟩
    | handleHashAndSaveFinished r => exact (keep _ (handleHashAndSaveFinished_fs st r) hrun).elim
    | addModel f => exact (keep _ (addModel_fs st f) hrun).elim
    | updateData f role value => exact (keep _ (updateData_fs st f role value) hrun).elim
  · intro st st1 reply e hrun
    refine ⟨handleModelDownloadFinished_fs st st1 reply (some e) hrun, ?_⟩
    rcases handleModelDownloadFinished_requests st st1 reply (some e) hrun with h | ⟨r, h, -, -⟩
    · exact h
    · unfold handleModelDownloadFinished at hrun
      cases hv : QMap.value st.m_activeDownloads reply with
      | none => simp [hv] at hrun
      | some tf =>
        simp only [hv, Option.some.injEq] at hrun
        subst hrun
        simp only [updateData_hashRequests]
  · intro env fs r hopen
    simp only [serve, hashAndSave, hopen, and_self]
  · intro env fs r heq hren hor
    unfold serve
    rcases hashAndSave_cases md5 env fs r.expectedHash r.saveFilePath r.tempFile r.modelReply with
      ⟨-, hs, hfs⟩ | ⟨-, hne, -, -⟩ | ⟨-, -, hrun⟩
    · exact ⟨hs, hfs⟩
    · exact absurd heq hne
    · rw [hrun]
      rcases installVerified_cases env fs r.saveFilePath
        { r.tempFile with isOpen := false, pos := 0 } r.modelReply with
        ⟨ht, -, -⟩ | ⟨-, -, hs, hfs⟩ | ⟨-, hre, hd, -, -⟩
      · rw [hren] at ht
        exact absurd ht (by simp)
      · exact ⟨hs, hfs⟩
      · rcases hor with hc | hc
        · exfalso
          apply hre
          unfold QFile.openReadOnly
          simp only [hc, Bool.and_false, Bool.false_eq_true, if_false]
        · rw [hc] at hd
          exact absurd hd (by simp)
  · intro st r hs
    refine ⟨handleHashAndSaveFinished_fs st r, ?_⟩
    unfold handleHashAndSaveFinished
    simp only [hs, Bool.not_false, if_true, updateData_telemetry]

/-- Witness for C14: the worker run on the three-byte temp file of `m.bin`
with another expected digest takes the temp file away, and the policy names
that run as the cause; with the matching digest, a refused rename and a
destination that does not open, the run reports failure and the disk is as
it was. -/
theorem temp_file_deletion_policy_witness :
    (run sumDigest wholeNumber (.hashAndSave kindEnv mismatchRequest) resumeState).map
        (fun st1 => exists_ st1.fs "/models/incomplete-m.bin") = some false ∧
      exists_ resumeState.fs "/models/incomplete-m.bin" = true ∧
      toHex (sumDigest (fileContent resumeState.fs "/models/incomplete-m.bin")) ≠ "0a" ∧
      ((∃ f, Op.hashAndSave kindEnv mismatchRequest = .removeModel f ∧
          ("/models/incomplete-m.bin" = incompleteDownloadPath resumeState f ∨
            "/models/incomplete-m.bin" = localModelsPath resumeState ++ f ++
              (if "chatgpt-".data.isPrefixOf f.data then ".txt" else ""))) ∨
        (∃ env r, Op.hashAndSave kindEnv mismatchRequest = .hashAndSave env r ∧
          "/models/incomplete-m.bin" = r.tempFile.fileName ∧
          (toHex (sumDigest (fileContent resumeState.fs r.tempFile.fileName)) ≠ r.expectedHash ∨
            (serve sumDigest env resumeState.fs r).1.success = true))) ∧
      toHex (sumDigest (fileContent partialDisk matchRequest.tempFile.fileName))
        = matchRequest.expectedHash ∧
      renameSucceeds stuckEnv partialDisk matchRequest.saveFilePath = false ∧
      (serve sumDigest stuckEnv partialDisk matchRequest).1.success = false ∧
      (serve sumDigest stuckEnv partialDisk matchRequest).2 = partialDisk :=
  ⟨by decide, by decide, by decide,
    (temp_file_deletion_policy sumDigest wholeNumber).1 (.hashAndSave kindEnv mismatchRequest)
      resumeState { resumeState with fs := (serve sumDigest kindEnv resumeState.fs mismatchRequest).2 }
      "/models/incomplete-m.bin" rfl (by decide) (by decide),
    by decide, by decide,
    (temp_file_deletion_policy sumDigest wholeNumber).2.2.2.2.1 stuckEnv partialDisk matchRequest
      (by decide) (by decide) (Or.inr rfl)⟩

/-! ## C11: the flags of the registry and the sessions -/

theorem flags_updateData_other (st : State) (f : String) (r : Role) (v : QVariant) (g : String)
    (h : g ≠ f) : flags (updateData st f r v) g = flags st g := by
  unfold flags updateData
  split
  · rfl
  · simp only [h, if_false]

theorem flags_updateData_downloading (st : State) (f : String) (b : Bool) :
    flags (updateData st f .DownloadingRole (.bool b)) f =
      (flags st f).map fun p => (b, p.2) := by
  unfold flags updateData
  cases h : st.m_modelMap f with
  | none => simp only [h, Option.map_none']
  | some info =>
    simp only [if_true, Option.map_some', ModelInfo.setRole, QVariant.toBool]
    split_ifs <;> rfl

theorem flags_updateData_calcHash (st : State) (f : String) (b : Bool) :
    flags (updateData st f .CalcHashRole (.bool b)) f =
      (flags st f).map fun p => (p.1, b) := by
  unfold flags updateData
  cases h : st.m_modelMap f with
  | none => simp only [h, Option.map_none']
  | some info =>
    simp only [if_true, Option.map_some', ModelInfo.setRole, QVariant.toBool]
    split_ifs <;> rfl

theorem flags_updateData_downloadError (st : State) (f : String) (e : String) (g : String) :
    flags (updateData st f .DownloadErrorRole (.string e)) g = flags st g := by
  unfold flags updateData
  cases h : st.m_modelMap f with
  | none => rfl
  | some info =>
    simp only
    by_cases hg : g = f
    · subst hg
      simp only [if_true, Option.map_some', ModelInfo.setRole, h]
      split_ifs <;> rfl
    · simp only [hg, if_false]

theorem downloadModel_hashRequests (st : State) (f : String) (now : Int) (openOk : Bool) :
    (downloadModel st f now openOk).hashRequests = st.hashRequests := by
  unfold downloadModel
  by_cases ho : openOk = true
  · simp only [ho, Bool.not_true, Bool.false_eq_true, if_false, contains]
    by_cases hk : (st.m_modelMap f).isSome = true
    · simp only [hk, Bool.not_true, Bool.false_eq_true, if_false, updateData_hashRequests]
    · simp only [hk, Bool.not_false, Bool.not_eq_true, if_true]
  · simp only [ho, Bool.not_false, if_true, updateData_hashRequests]

/-- What `downloadModel` does to the table and to the flags: nothing, or one
new session for the file under a fresh reply and `isDownloading` set. -/
theorem downloadModel_effect (st : State) (f : String) (now : Int) (openOk : Bool)
    (hfresh : ∀ e ∈ st.m_activeDownloads, e.1.id < st.nextReply) :
    ((downloadModel st f now openOk).m_activeDownloads = st.m_activeDownloads ∧
      (downloadModel st f now openOk).nextReply = st.nextReply ∧
      ∀ g, flags (downloadModel st f now openOk) g = flags st g) ∨
    (∃ (modelReply : QNetworkReply) (tempFile : QFile),
      modelReply.id = st.nextReply ∧ modelReply.request.user = f ∧
      (downloadModel st f now openOk).m_activeDownloads =
        st.m_activeDownloads ++ [(modelReply, tempFile)] ∧
      (downloadModel st f now openOk).nextReply = st.nextReply + 1 ∧
      flags (downloadModel st f now openOk) f = (flags st f).map (fun p => (true, p.2)) ∧
      ∀ g, g ≠ f → flags (downloadModel st f now openOk) g = flags st g) := by
  by_cases ho : openOk = true
  · subst ho
    by_cases hk : contains st f = true
    · right
      obtain ⟨req, tf, h1, h2, h3, -, -⟩ := downloadModel_known_fresh st f now hk hfresh
      refine ⟨{ id := st.nextReply, request := req }, tf, rfl, h2, h1, h3, ?_, ?_⟩
      · have hc : ∀ fs1 : FileSystem, contains { st with fs := fs1 } f = true := fun _ => hk
        simp only [downloadModel, Bool.not_true, Bool.false_eq_true, if_false, hc]
        exact flags_updateData_downloading _ f true
      · intro g hg
        have hc : ∀ fs1 : FileSystem, contains { st with fs := fs1 } f = true := fun _ => hk
        simp only [downloadModel, Bool.not_true, Bool.false_eq_true, if_false, hc]
        exact flags_updateData_other _ f _ _ g hg
    · left
      have hc : ∀ fs1 : FileSystem, contains { st with fs := fs1 } f = false := fun _ => by
        simpa using hk
      simp only [downloadModel, Bool.not_true, Bool.false_eq_true, if_false, hc, Bool.not_false,
        if_true, true_and]
      intro g
      rfl
  · left
    have ho1 : openOk = false := by simpa using ho
    subst ho1
    simp only [downloadModel, Bool.not_false, if_true, updateData_activeDownloads,
      updateData_nextReply, true_and]
    intro g
    exact flags_updateData_downloadError _ f _ g

/-- What `cancelDownload` does to the table and to the flags: nothing, or the
entry it finds by URL suffix is removed and `isDownloading` of the name it was
called with is cleared. -/
theorem cancelDownload_effect (st : State) (f : String) :
    cancelDownload st f = st ∨
    (∃ (modelReply : QNetworkReply) (tempFile : QFile),
      (st.m_activeDownloads.find? fun e => endsWith e.1.request.url f)
        = some (modelReply, tempFile) ∧
      (cancelDownload st f).m_activeDownloads = QMap.remove st.m_activeDownloads modelReply ∧
      (cancelDownload st f).nextReply = st.nextReply ∧
      flags (cancelDownload st f) f = (flags st f).map (fun p => (false, p.2)) ∧
      ∀ g, g ≠ f → flags (cancelDownload st f) g = flags st g) := by
  unfold cancelDownload
  cases hfind : st.m_activeDownloads.find? fun e => endsWith e.1.request.url f with
  | none => left; rfl
  | some e =>
    obtain ⟨reply, tf⟩ := e
    right
    refine ⟨reply, tf, rfl, ?_, ?_, ?_, ?_⟩
    · simp only [updateData_activeDownloads]
    · simp only [updateData_nextReply]
    · exact flags_updateData_downloading _ f false
    · intro g hg
      exact flags_updateData_other _ f _ _ g hg

/-- What `handleModelDownloadFinished` does for a reply the table holds. -/
theorem handleModelDownloadFinished_effect (st st1 : State) (modelReply : QNetworkReply)
    (error : Option String) (h : handleModelDownloadFinished st modelReply error = some st1) :
    st1.m_activeDownloads = QMap.remove st.m_activeDownloads modelReply ∧
    st1.nextReply = st.nextReply ∧
    (∀ g, g ≠ modelReply.request.user → flags st1 g = flags st g) ∧
    ((st1.hashRequests = st.hashRequests ∧
        flags st1 modelReply.request.user =
          (flags st modelReply.request.user).map (fun p => (false, p.2)) ∧ error ≠ none) ∨
      (st1.hashRequests = st.hashRequests ∧ flags st modelReply.request.user = none ∧
        flags st1 modelReply.request.user = none) ∨
      (∃ r : HashRequest, st1.hashRequests = st.hashRequests ++ [r] ∧ r.modelReply = modelReply ∧
        flags st1 modelReply.request.user =
          (flags st modelReply.request.user).map (fun p => (p.1, true)))) := by
  unfold handleModelDownloadFinished at h
  cases hv : QMap.value st.m_activeDownloads modelReply with
  | none => simp [hv] at h
  | some tf =>
    simp only [hv] at h
    cases error with
    | some e =>
      simp only [Option.some.injEq] at h
      subst h
      refine ⟨?_, ?_, ?_, Or.inl ⟨?_, ?_, by simp⟩⟩
      · simp only [updateData_activeDownloads]
      · simp only [updateData_nextReply]
      · intro g hg
        rw [flags_updateData_downloadError, flags_updateData_other _ _ _ _ g hg]
        rfl
      · simp only [updateData_hashRequests]
      · rw [flags_updateData_downloadError, flags_updateData_downloading]
        rfl
    | none =>
      simp only at h
      by_cases hk : contains { st with
          m_activeDownloads := QMap.remove st.m_activeDownloads modelReply }
          modelReply.request.user = true
      · simp only [hk, Bool.not_true, Bool.false_eq_true, if_false, Option.some.injEq] at h
        subst h
        refine ⟨?_, ?_, ?_, Or.inr (Or.inr ⟨⟨?eh, ?sp, tf.close, modelReply⟩, ?h1, rfl, ?h2⟩)⟩
        · simp only [updateData_activeDownloads]
        · simp only [updateData_nextReply]
        · intro g hg
          exact flags_updateData_other _ _ _ _ g hg
        case h1 =>
          simp only [updateData_hashRequests]
          exact rfl
        case h2 =>
          exact flags_updateData_calcHash _ _ true
      · simp only [hk, Bool.not_false, Bool.not_eq_true, if_true, Option.some.injEq] at h
        subst h
        have hnone : st.m_modelMap modelReply.request.user = none := by
          simpa [contains] using hk
        refine ⟨rfl, rfl, fun g _ => rfl, Or.inr (Or.inl ⟨rfl, ?_, ?_⟩)⟩
        · simp only [flags, hnone, Option.map_none']
        · simp only [flags, hnone, Option.map_none']

theorem hashAndSave_modelReply (md5 : List Byte → List Byte) (env : HashEnv) (fs : FileSystem)
    (expectedHash saveFilePath : String) (tempFile : QFile) (modelReply : QNetworkReply) :
    (hashAndSave md5 env fs expectedHash saveFilePath tempFile modelReply).1.modelReply
      = modelReply := by
  unfold hashAndSave
  rcases openReadOnly_none_or fs env.reopenOk tempFile with h | h
  · simp only [h]
  · simp only [h]
    by_cases hb : (toHex ((hashLoop (fileContent fs tempFile.fileName).length
        (fileContent fs tempFile.fileName) 0 {}).1.result md5) != expectedHash) = true
    · simp only [hb, if_true]
    · have hb1 : (toHex ((hashLoop (fileContent fs tempFile.fileName).length
          (fileContent fs tempFile.fileName) 0 {}).1.result md5) != expectedHash) = false := by
        simpa using hb
      simp only [hb1, Bool.false_eq_true, if_false]
      unfold installVerified
      by_cases hr : renameSucceeds env fs saveFilePath = true
      · simp only [hr, if_true]
      · simp only [hr, Bool.false_eq_true, if_false]
        rcases openReadOnly_none_or fs env.reopenCopyOk (QFile.close
          { tempFile with isOpen := true, pos := 0 }) with h2 | h2
        · simp only [h2]
        · simp only [h2]
          by_cases hd : env.destOpenOk = true
          · simp only [hd, if_true]
          · simp only [hd, Bool.false_eq_true, if_false]

/-- What `handleHashAndSaveFinished` does: both flags of the file are cleared. -/
theorem handleHashAndSaveFinished_effect (st : State) (r : HashResult) :
    (handleHashAndSaveFinished st r).m_activeDownloads = st.m_activeDownloads ∧
    (handleHashAndSaveFinished st r).nextReply = st.nextReply ∧
    (handleHashAndSaveFinished st r).hashRequests = st.hashRequests ∧
    flags (handleHashAndSaveFinished st r) r.modelReply.request.user =
      (flags st r.modelReply.request.user).map (fun _ => (false, false)) ∧
    ∀ g, g ≠ r.modelReply.request.user → flags (handleHashAndSaveFinished st r) g = flags st g := by
  unfold handleHashAndSaveFinished
  refine ⟨?_, ?_, ?_, ?_, ?_⟩
  · split_ifs <;> simp only [updateData_activeDownloads]
  · split_ifs <;> simp only [updateData_nextReply]
  · split_ifs <;> simp only [updateData_hashRequests]
  · have key : flags (updateData (updateData { st with telemetry := st.telemetry ++
        [.downloadFinished r.modelReply.request.user r.success] } r.modelReply.request.user
        .CalcHashRole (.bool false)) r.modelReply.request.user .DownloadingRole (.bool false))
        r.modelReply.request.user
        = (flags st r.modelReply.request.user).map (fun _ => (false, false)) := by
      rw [flags_updateData_downloading, flags_updateData_calcHash]
      show Option.map _ (Option.map _ (flags st r.modelReply.request.user)) = _
      cases flags st r.modelReply.request.user <;> rfl
    split_ifs
    · rw [flags_updateData_downloadError]; exact key
    · rw [flags_updateData_downloadError]; exact key
  · intro g hg
    split_ifs
    · rw [flags_updateData_downloadError, flags_updateData_other _ _ _ _ g hg,
        flags_updateData_other _ _ _ _ g hg]
      rfl
    · rw [flags_updateData_downloadError, flags_updateData_other _ _ _ _ g hg,
        flags_updateData_other _ _ _ _ g hg]
      rfl

theorem QMap.remove_owners (m : ActiveDownloads) (k : QNetworkReply) (v : QFile)
    (hid : (m.map fun e => e.1.id).Nodup) (hown : (m.map fun e => e.1.request.user).Nodup)
    (hmem : (k, v) ∈ m) :
    ((QMap.remove m k).map fun e => e.1.id).Nodup ∧
    ((QMap.remove m k).map fun e => e.1.request.user).Nodup ∧
    (∀ e ∈ QMap.remove m k, e ∈ m) ∧
    k.request.user ∉ (QMap.remove m k).map (fun e => e.1.request.user) ∧
    ∀ g, g ≠ k.request.user →
      (g ∈ (QMap.remove m k).map (fun e => e.1.request.user) ↔
        g ∈ m.map fun e => e.1.request.user) := by
  have hsub : List.Sublist (QMap.remove m k) m := List.filter_sublist _
  refine ⟨List.Nodup.sublist (hsub.map _) hid, List.Nodup.sublist (hsub.map _) hown,
    fun e he => hsub.subset he, ?_, ?_⟩
  · intro h
    obtain ⟨e, he, heu⟩ := List.mem_map.1 h
    have hem : e ∈ m := hsub.subset he
    have hne : e.1.id ≠ k.id := by
      have := (List.mem_filter.1 he).2
      simpa using this
    have heq : e = (k, v) := List.inj_on_of_nodup_map hown hem hmem heu
    rw [heq] at hne
    exact hne rfl
  · intro g hg
    constructor
    · intro h
      exact (hsub.map _).subset h
    · intro h
      obtain ⟨e, hem, heu⟩ := List.mem_map.1 h
      refine List.mem_map.2 ⟨e, ?_, heu⟩
      refine List.mem_filter.2 ⟨hem, ?_⟩
      have hne : e.1.id ≠ k.id := by
        intro hc
        have heq : e = (k, v) := List.inj_on_of_nodup_map hid hem hmem hc
        rw [heq] at heu
        exact hg heu.symm
      simpa using hne

theorem InvOn_congr (table : ActiveDownloads) (nextReply : Nat) (pending : List String)
    (fl fl1 : String → Option (Bool × Bool)) (h : InvOn table nextReply pending fl)
    (hfl : ∀ g, fl1 g = fl g) : InvOn table nextReply pending fl1 := by
  obtain ⟨h1, h2, h3, h4, h5, h6⟩ := h
  refine ⟨h1, h2, h3, h4, h5, ?_⟩
  intro f p hp
  rw [hfl] at hp
  exact h6 f p hp

theorem InvOn_append (table : ActiveDownloads) (nextReply : Nat) (pending : List String)
    (fl fl1 : String → Option (Bool × Bool)) (h : InvOn table nextReply pending fl)
    (modelReply : QNetworkReply) (tempFile : QFile) (hid : modelReply.id = nextReply)
    (hno : modelReply.request.user ∉ table.map fun e => e.1.request.user)
    (hnp : modelReply.request.user ∉ pending)
    (hf : fl1 modelReply.request.user = (fl modelReply.request.user).map fun p => (true, p.2))
    (hg : ∀ g, g ≠ modelReply.request.user → fl1 g = fl g) :
    InvOn (table ++ [(modelReply, tempFile)]) (nextReply + 1) pending fl1 := by
  obtain ⟨h1, h2, h3, h4, h5, h6⟩ := h
  refine ⟨?_, ?_, ?_, h4, ?_, ?_⟩
  · rw [List.map_append, List.nodup_append]
    refine ⟨h1, by simp, ?_⟩
    intro a ha hb
    obtain ⟨e, he, hea⟩ := List.mem_map.1 ha
    have hlt := h2 e he
    simp only [List.map_cons, List.map_nil, List.mem_singleton] at hb
    omega
  · intro e he
    rcases List.mem_append.1 he with he | he
    · have := h2 e he
      omega
    · simp only [List.mem_singleton] at he
      rw [he]
      simp only
      omega
  · rw [List.map_append, List.nodup_append]
    refine ⟨h3, by simp, ?_⟩
    intro a ha hb
    simp only [List.map_cons, List.map_nil, List.mem_singleton] at hb
    rw [hb] at ha
    exact hno ha
  · intro f hfm
    rw [List.map_append, List.mem_append] at hfm
    rcases hfm with hfm | hfm
    · exact h5 f hfm
    · simp only [List.map_cons, List.map_nil, List.mem_singleton] at hfm
      rw [hfm]
      exact hnp
  · intro f p hp
    by_cases hfe : f = modelReply.request.user
    · subst hfe
      rw [hf] at hp
      cases hq : fl modelReply.request.user with
      | none => rw [hq] at hp; simp at hp
      | some q =>
        rw [hq] at hp
        simp only [Option.map_some', Option.some.injEq] at hp
        subst hp
        refine ⟨?_, ?_⟩
        · simp
        · exact (h6 _ q hq).2
    · rw [hg f hfe] at hp
      obtain ⟨ha, hb⟩ := h6 f p hp
      refine ⟨?_, hb⟩
      rw [ha, List.map_append, List.mem_append]
      simp only [List.map_cons, List.map_nil, List.mem_singleton, hfe, or_false]

theorem InvOn_remove_clear (table : ActiveDownloads) (nextReply : Nat) (pending : List String)
    (fl fl1 : String → Option (Bool × Bool)) (h : InvOn table nextReply pending fl)
    (modelReply : QNetworkReply) (tempFile : QFile) (hmem : (modelReply, tempFile) ∈ table)
    (hf : fl1 modelReply.request.user = (fl modelReply.request.user).map fun p => (false, p.2))
    (hg : ∀ g, g ≠ modelReply.request.user → fl1 g = fl g) :
    InvOn (QMap.remove table modelReply) nextReply pending fl1 := by
  obtain ⟨h1, h2, h3, h4, h5, h6⟩ := h
  obtain ⟨r1, r2, r3, r4, r5⟩ := QMap.remove_owners table modelReply tempFile h1 h3 hmem
  have hown : modelReply.request.user ∈ table.map fun e => e.1.request.user :=
    List.mem_map.2 ⟨(modelReply, tempFile), hmem, rfl⟩
  refine ⟨r1, fun e he => h2 e (r3 e he), r2, h4, ?_, ?_⟩
  · intro f hfm
    by_cases hfe : f = modelReply.request.user
    · rw [hfe]; exact h5 _ hown
    · exact h5 f ((r5 f hfe).1 hfm)
  · intro f p hp
    by_cases hfe : f = modelReply.request.user
    · subst hfe
      rw [hf] at hp
      cases hq : fl modelReply.request.user with
      | none => rw [hq] at hp; simp at hp
      | some q =>
        rw [hq] at hp
        simp only [Option.map_some', Option.some.injEq] at hp
        subst hp
        have hnp := h5 _ hown
        refine ⟨?_, (h6 _ q hq).2⟩
        simp only [Bool.false_eq_true, false_iff, not_or]
        exact ⟨r4, hnp⟩
    · rw [hg f hfe] at hp
      obtain ⟨ha, hb⟩ := h6 f p hp
      refine ⟨?_, hb⟩
      rw [ha, r5 f hfe]

theorem InvOn_remove_unknown (table : ActiveDownloads) (nextReply : Nat) (pending : List String)
    (fl fl1 : String → Option (Bool × Bool)) (h : InvOn table nextReply pending fl)
    (modelReply : QNetworkReply) (tempFile : QFile) (hmem : (modelReply, tempFile) ∈ table)
    (hf : fl1 modelReply.request.user = none)
    (hg : ∀ g, g ≠ modelReply.request.user → fl1 g = fl g) :
    InvOn (QMap.remove table modelReply) nextReply pending fl1 := by
  obtain ⟨h1, h2, h3, h4, h5, h6⟩ := h
  obtain ⟨r1, r2, r3, -, r5⟩ := QMap.remove_owners table modelReply tempFile h1 h3 hmem
  have hown : modelReply.request.user ∈ table.map fun e => e.1.request.user :=
    List.mem_map.2 ⟨(modelReply, tempFile), hmem, rfl⟩
  refine ⟨r1, fun e he => h2 e (r3 e he), r2, h4, ?_, ?_⟩
  · intro f hfm
    by_cases hfe : f = modelReply.request.user
    · rw [hfe]; exact h5 _ hown
    · exact h5 f ((r5 f hfe).1 hfm)
  · intro f p hp
    by_cases hfe : f = modelReply.request.user
    · subst hfe
      rw [hf] at hp
      simp at hp
    · rw [hg f hfe] at hp
      obtain ⟨ha, hb⟩ := h6 f p hp
      refine ⟨?_, hb⟩
      rw [ha, r5 f hfe]

theorem InvOn_remove_pending (table : ActiveDownloads) (nextReply : Nat) (pending : List String)
    (fl fl1 : String → Option (Bool × Bool)) (h : InvOn table nextReply pending fl)
    (modelReply : QNetworkReply) (tempFile : QFile) (hmem : (modelReply, tempFile) ∈ table)
    (hf : fl1 modelReply.request.user = (fl modelReply.request.user).map fun p => (p.1, true))
    (hg : ∀ g, g ≠ modelReply.request.user → fl1 g = fl g) :
    InvOn (QMap.remove table modelReply) nextReply (pending ++ [modelReply.request.user]) fl1 := by
  obtain ⟨h1, h2, h3, h4, h5, h6⟩ := h
  obtain ⟨r1, r2, r3, r4, r5⟩ := QMap.remove_owners table modelReply tempFile h1 h3 hmem
  have hown : modelReply.request.user ∈ table.map fun e => e.1.request.user :=
    List.mem_map.2 ⟨(modelReply, tempFile), hmem, rfl⟩
  have hnp := h5 _ hown
  refine ⟨r1, fun e he => h2 e (r3 e he), r2, ?_, ?_, ?_⟩
  · rw [List.nodup_append]
    refine ⟨h4, by simp, ?_⟩
    intro a ha hb
    simp only [List.mem_singleton] at hb
    rw [hb] at ha
    exact hnp ha
  · intro f hfm
    by_cases hfe : f = modelReply.request.user
    · rw [hfe] at hfm
      exact absurd hfm r4
    · simp only [List.mem_append, List.mem_singleton, hfe, or_false]
      exact h5 f ((r5 f hfe).1 hfm)
  · intro f p hp
    by_cases hfe : f = modelReply.request.user
    · subst hfe
      rw [hf] at hp
      cases hq : fl modelReply.request.user with
      | none => rw [hq] at hp; simp at hp
      | some q =>
        rw [hq] at hp
        simp only [Option.map_some', Option.some.injEq] at hp
        subst hp
        obtain ⟨ha, -⟩ := h6 _ q hq
        refine ⟨?_, by simp⟩
        simp only [List.mem_append, List.mem_singleton, or_true, iff_true]
        exact ha.2 (Or.inl hown)
    · rw [hg f hfe] at hp
      obtain ⟨ha, hb⟩ := h6 f p hp
      refine ⟨?_, ?_⟩
      · rw [ha, r5 f hfe]
        simp only [List.mem_append, List.mem_singleton, hfe, or_false]
      · rw [hb]
        simp only [List.mem_append, List.mem_singleton, hfe, or_false]

theorem InvOn_answer (table : ActiveDownloads) (nextReply : Nat) (pending : List String)
    (fl fl1 : String → Option (Bool × Bool)) (u : String)
    (h : InvOn table nextReply (u :: pending) fl)
    (hf : fl1 u = (fl u).map fun _ => (false, false))
    (hg : ∀ g, g ≠ u → fl1 g = fl g) :
    InvOn table nextReply pending fl1 := by
  obtain ⟨h1, h2, h3, h4, h5, h6⟩ := h
  have hu : u ∉ pending := (List.nodup_cons.1 h4).1
  have huo : u ∉ table.map fun e => e.1.request.user := by
    intro hc
    exact h5 u hc (List.mem_cons_self _ _)
  refine ⟨h1, h2, h3, (List.nodup_cons.1 h4).2, ?_, ?_⟩
  · intro f hfm hfp
    exact h5 f hfm (List.mem_cons_of_mem _ hfp)
  · intro f p hp
    by_cases hfe : f = u
    · subst hfe
      rw [hf] at hp
      cases hq : fl f with
      | none => rw [hq] at hp; simp at hp
      | some q =>
        rw [hq] at hp
        simp only [Option.map_some', Option.some.injEq] at hp
        subst hp
        simp only [Bool.false_eq_true, false_iff, not_or]
        exact ⟨⟨huo, hu⟩, hu⟩
    · rw [hg f hfe] at hp
      obtain ⟨ha, hb⟩ := h6 f p hp
      refine ⟨?_, ?_⟩
      · rw [ha]
        simp only [List.mem_cons, hfe, false_or]
      · rw [hb]
        simp only [List.mem_cons, hfe, false_or]

/-- Every reachable state satisfies the invariant. -/
theorem Reach_Inv (md5 : List Byte → List Byte) (st : State) (n : Nat) (h : Reach md5 st n) :
    Inv st n := by
  induction h with
  | idle st n hidle =>
    obtain ⟨ht, hn, hfl⟩ := hidle
    refine ⟨by omega, ?_⟩
    have hp : pendingOwners st n = [] := by
      simp only [pendingOwners, hn, List.drop_length, List.map_nil]
    rw [ht, hp]
    refine ⟨by simp, by simp, by simp, by simp, by simp, ?_⟩
    intro f p hp
    simp only [flags] at hp
    cases hm : st.m_modelMap f with
    | none => rw [hm] at hp; simp at hp
    | some info =>
      rw [hm] at hp
      simp only [Option.map_some', Option.some.injEq] at hp
      obtain ⟨ha, hb⟩ := hfl f info hm
      subst hp
      simp [ha, hb]
  | download st n f now openOk _ hno hnp ih =>
    obtain ⟨hn, hinv⟩ := ih
    have hpend : pendingOwners (downloadModel st f now openOk) n = pendingOwners st n := by
      simp only [pendingOwners, downloadModel_hashRequests]
    refine ⟨by rw [downloadModel_hashRequests]; exact hn, ?_⟩
    rw [hpend]
    rcases downloadModel_effect st f now openOk hinv.2.1 with
      ⟨ht, hnr, hfl⟩ | ⟨reply, tf, hid, hu, ht, hnr, hf, hg⟩
    · rw [ht, hnr]
      exact InvOn_congr _ _ _ _ _ hinv hfl
    · rw [ht, hnr]
      subst hu
      exact InvOn_append _ _ _ _ _ hinv reply tf hid hno hnp hf hg
  | cancel st n f _ hguard ih =>
    obtain ⟨hn, hinv⟩ := ih
    rcases cancelDownload_effect st f with he | ⟨reply, tf, hfind, ht, hnr, hf, hg⟩
    · rw [he]
      exact ⟨hn, hinv⟩
    · have hu : reply.request.user = f := hguard _ hfind
      have hmem : (reply, tf) ∈ st.m_activeDownloads := List.mem_of_find?_eq_some hfind
      have hpend : pendingOwners (cancelDownload st f) n = pendingOwners st n := by
        simp only [pendingOwners, cancelDownload_hashRequests]
      refine ⟨by rw [cancelDownload_hashRequests]; exact hn, ?_⟩
      rw [hpend, ht, hnr]
      subst hu
      exact InvOn_remove_clear _ _ _ _ _ hinv reply tf hmem hf hg
  | finished st st1 n reply tf err _ hmem hrun ih =>
    obtain ⟨hn, hinv⟩ := ih
    obtain ⟨ht, hnr, hg, hcase⟩ := handleModelDownloadFinished_effect st st1 reply err hrun
    rcases hcase with ⟨hh, hf, -⟩ | ⟨hh, hf0, hf⟩ | ⟨r, hh, hr, hf⟩
    · have hpend : pendingOwners st1 n = pendingOwners st n := by
        simp only [pendingOwners, hh]
      refine ⟨by rw [hh]; exact hn, ?_⟩
      rw [hpend, ht, hnr]
      exact InvOn_remove_clear _ _ _ _ _ hinv reply tf hmem hf hg
    · have hpend : pendingOwners st1 n = pendingOwners st n := by
        simp only [pendingOwners, hh]
      refine ⟨by rw [hh]; exact hn, ?_⟩
      rw [hpend, ht, hnr]
      exact InvOn_remove_unknown _ _ _ _ _ hinv reply tf hmem hf hg
    · have hpend : pendingOwners st1 n = pendingOwners st n ++ [reply.request.user] := by
        simp only [pendingOwners, hh, List.drop_append_of_le_length hn, List.map_append,
          List.map_cons, List.map_nil, hr]
      refine ⟨by rw [hh, List.length_append]; omega, ?_⟩
      rw [hpend, ht, hnr]
      exact InvOn_remove_pending _ _ _ _ _ hinv reply tf hmem hf hg
  | worker st n env r _ _ ih => exact ih
  | verified st n env fs0 r _ hget ih =>
    obtain ⟨hn, hinv⟩ := ih
    obtain ⟨ht, hnr, hh, hf, hg⟩ := handleHashAndSaveFinished_effect st (serve md5 env fs0 r).1
    have hreply : (serve md5 env fs0 r).1.modelReply = r.modelReply :=
      hashAndSave_modelReply md5 env fs0 r.expectedHash r.saveFilePath r.tempFile r.modelReply
    rw [hreply] at hf hg
    obtain ⟨hlt, hr⟩ := List.get?_eq_some.1 hget
    have hdrop : st.hashRequests.drop n = r :: st.hashRequests.drop (n + 1) := by
      rw [← hr]
      exact List.drop_eq_getElem_cons hlt
    have hpend : pendingOwners st n = r.modelReply.request.user ::
        pendingOwners (handleHashAndSaveFinished st (serve md5 env fs0 r).1) (n + 1) := by
      simp only [pendingOwners, hh, hdrop, List.map_cons]
    refine ⟨by rw [hh]; omega, ?_⟩
    rw [ht, hnr]
    rw [hpend] at hinv
    exact InvOn_answer _ _ _ _ _ _ hinv hf hg

theorem mem_sessionOwners_iff (st : State) (f : String) :
    f ∈ sessionOwners st ↔ sessionsFor st f ≠ [] := by
  unfold sessionOwners sessionsFor
  rw [List.mem_map, ne_eq, List.filter_eq_nil_iff]
  constructor
  · rintro ⟨e, he, heu⟩ hall
    exact hall e he (by simpa using heu)
  · intro h
    simp only [not_forall] at h
    obtain ⟨e, he, hne⟩ := h
    exact ⟨e, he, by simpa using hne⟩

/-- C11 (as the code behaves). In every state reached from a state at rest
through `downloadModel` (called for a file name with no session and no pending
verification), `cancelDownload` (called with a name for which the entry found
by URL suffix is a session of that name), `handleModelDownloadFinished`, the
worker and `handleHashAndSaveFinished`, a file name the registry knows has
`isDownloading` set exactly when the table holds a session for it or its
verification is pending, and `calcHash` set exactly when its verification is
pending, that is from the completion of its stream without error until the
worker's result is handled. -/
theorem registry_session_invariant (md5 : List Byte → List Byte) (st : State) (n : Nat)
    (h : Reach md5 st n) (f : String) (info : ModelInfo) (hinfo : st.m_modelMap f = some info) :
    (info.isDownloading = true ↔ sessionsFor st f ≠ [] ∨ f ∈ pendingOwners st n) ∧
    (info.calcHash = true ↔ f ∈ pendingOwners st n) := by
  obtain ⟨-, -, -, -, -, -, hfl⟩ := Reach_Inv md5 st n h
  have hflags : flags st f = some (info.isDownloading, info.calcHash) := by
    simp only [flags, hinfo, Option.map_some']
  obtain ⟨ha, hb⟩ := hfl f _ hflags
  refine ⟨?_, hb⟩
  rw [← mem_sessionOwners_iff]
  exact ha

/-- Witness for C11: `verifyingState` is reached from the state at rest
`resumeState` by `downloadModel` and the completion of the stream; there the
record of `m.bin` has both flags set, the table holds no session for it and
its verification is pending. -/
theorem registry_session_invariant_witness :
    Reach sumDigest verifyingState 0 ∧
      verifyingState.m_modelMap "m.bin" = some verifyingInfo ∧
      (verifyingInfo.isDownloading = true ↔
        sessionsFor verifyingState "m.bin" ≠ [] ∨ "m.bin" ∈ pendingOwners verifyingState 0) ∧
      (verifyingInfo.calcHash = true ↔ "m.bin" ∈ pendingOwners verifyingState 0) := by
  have hidle : Idle resumeState 0 := by
    refine ⟨rfl, rfl, ?_⟩
    intro f info h
    have h1 : oneModel f = some info := h
    unfold oneModel at h1
    split_ifs at h1
    cases h1
    exact ⟨rfl, rfl⟩
  have hreach : Reach sumDigest verifyingState 0 :=
    Reach.finished activeState verifyingState 0 replyOfM
      { fileName := "/models/incomplete-m.bin", isOpen := true, pos := 3 } none
      (Reach.download resumeState 0 "m.bin" 3000 true (Reach.idle resumeState 0 hidle)
        (by decide) (by decide))
      (by decide) rfl
  exact ⟨hreach, by decide,
    registry_session_invariant sumDigest verifyingState 0 hreach "m.bin" verifyingInfo (by decide)⟩

/-- C11 as stated fails. From `resumeState`, where the table is empty and
`m.bin` is not marked as downloading, `downloadModel` for `m.bin` followed by
the completion of its stream without error gives a state in which the record
of `m.bin` has `isDownloading` set while the table holds no session at all:
the flag is cleared only by `handleHashAndSaveFinished`. -/
theorem registry_session_counterexample :
    resumeState.m_activeDownloads = [] ∧
      (resumeState.m_modelMap "m.bin").map (fun info => info.isDownloading) = some false ∧
      handleModelDownloadFinished (downloadModel resumeState "m.bin" 3000 true) replyOfM none
        = some verifyingState ∧
      (verifyingState.m_modelMap "m.bin").map (fun info => info.isDownloading) = some true ∧
      contains verifyingState "m.bin" = true ∧
      verifyingState.m_activeDownloads = [] ∧
      sessionsFor verifyingState "m.bin" = [] :=
  ⟨rfl, by decide, rfl, by decide, by decide, by decide, by decide⟩

/-! ## C3: the text of a digest mismatch -/

/-- C3, on a concrete run. The temp file of `m.bin` holds three bytes with
digest `06`. With the expected digest `0a` the run reports failure, removes
the temp file, and its text names both digests. With the expected digest
`%3`, itself a place marker, the third chained call of `QString::arg` puts
the file name where the expected digest was inserted: the run reports
failure and removes the temp file, but the text names the computed digest and
twice the file name, and not the expected digest. -/
theorem hashAndSave_mismatch_text_loses_expected :
    toHex (sumDigest (fileContent partialDisk tempOfM.fileName)) = "06" ∧
      (hashAndSave sumDigest kindEnv partialDisk "0a" "/models/m.bin" tempOfM replyOfM).1.success
        = false ∧
      (hashAndSave sumDigest kindEnv partialDisk "0a" "/models/m.bin" tempOfM replyOfM).1.error
        = "ERROR: Download error MD5SUM did not match: 06 != 0a for m.bin" ∧
      exists_ (hashAndSave sumDigest kindEnv partialDisk "0a" "/models/m.bin" tempOfM replyOfM).2
        tempOfM.fileName = false ∧
      (hashAndSave sumDigest kindEnv partialDisk "%3" "/models/m.bin" tempOfM replyOfM).1.success
        = false ∧
      (hashAndSave sumDigest kindEnv partialDisk "%3" "/models/m.bin" tempOfM replyOfM).1.error
        = "ERROR: Download error MD5SUM did not match: 06 != m.bin for m.bin" ∧
      exists_ (hashAndSave sumDigest kindEnv partialDisk "%3" "/models/m.bin" tempOfM replyOfM).2
        tempOfM.fileName = false := by
  decide

/-! ## C6: two notifications less than 1000 ms apart -/

/-- C6, counterexample. In `speedState` the registry holds the time stamp
10000 for `m.bin`. A notification at 10500 is throttled and changes nothing;
the next one, at 11200, comes 700 ms after it and writes `bytesReceived`,
`bytesTotal`, `speed` and `timestamp`: the throttle measures from the time
stamp of the last write, not from the last notification. -/
theorem handleDownloadProgress_throttle_counterexample :
    (speedState.m_modelMap "m.bin").map
        (fun i => (i.bytesReceived, i.bytesTotal, i.speed, i.timestamp)) = some (0, 0, "", 10000) ∧
      (11200 : Int) - 10500 < 1000 ∧
      handleDownloadProgress wholeNumber speedState replyOfM "" 1500 3000 10500 = some speedState ∧
      (((handleDownloadProgress wholeNumber speedState replyOfM "" 1500 3000 10500).bind fun st1 =>
          handleDownloadProgress wholeNumber st1 replyOfM "" 1500 3000 11200).bind fun st2 =>
            (st2.m_modelMap "m.bin").map
              fun i => (i.bytesReceived, i.bytesTotal, i.speed, i.timestamp))
        = some (1500, 3000, "1000 B/s", 11200) :=
  ⟨by decide, by decide, rfl, by decide⟩

end Gpt4all
